import Mathlib

/-!
Verification of the wizard-workspace virtual filesystem and shell interpreter
(src/src/stores/filesystemStore.ts, src/src/stores/terminalStore.ts).

The TypeScript code is shallowly embedded: the zustand stores become pure
state-passing functions, JavaScript strings become Lean `String`
(`List Char` data), JavaScript objects used as string-keyed records become
insertion-ordered association lists, and JavaScript library functions
(`split`, `replace`, `trim`, `padStart`, array `slice`/indexing, ...) are
reimplemented with their JavaScript semantics.  Nondeterministic inputs of
the source (uuidv4, Date.now, locale date formatting, the authenticated
user name) are passed in as explicit parameters.
-/

namespace Wizard

/-- Lookup in a JavaScript object viewed as an insertion-ordered association
list (`obj[k]`, yielding `undefined` as `none`). -/
def alistGet {α : Type} : List (String × α) → String → Option α
  | [], _ => none
  | (k, v) :: rest, key => if k = key then some v else alistGet rest key

/-- JavaScript object update `{...obj, [k]: v}`: an existing key keeps its
position and gets the new value, a fresh key is appended at the end. -/
def alistSet {α : Type} (m : List (String × α)) (k : String) (v : α) :
    List (String × α) :=
  if m.any (fun p => p.1 = k) then
    m.map (fun p => if p.1 = k then (k, v) else p)
  else m ++ [(k, v)]

/-- JavaScript `delete obj[k]`: removes the key, preserving the order of the
remaining entries. -/
def alistDelete {α : Type} (m : List (String × α)) (k : String) :
    List (String × α) :=
  m.filter (fun p => p.1 ≠ k)

/-- JavaScript `Object.values(obj)` in insertion order. -/
def alistValues {α : Type} (m : List (String × α)) : List α :=
  m.map Prod.snd

/-- JavaScript truthiness of `s || d` for strings: the empty string is falsy. -/
def jsOrStr (x : Option String) (d : String) : String :=
  match x with
  | none => d
  | some s => if s = "" then d else s

/-- Core of JavaScript `String.prototype.split` with a one-character
separator, on character lists.  `split` never returns an empty list; an
empty input yields one empty chunk. -/
def splitChars (sep : Char) : List Char → List (List Char)
  | [] => [[]]
  | c :: rest =>
    match splitChars sep rest with
    | [] => [[c]]
    | w :: ws => if c = sep then [] :: w :: ws else (c :: w) :: ws

/-- JavaScript `s.split(sep)` for a one-character separator. -/
def jsSplit (sep : Char) (s : String) : List String :=
  (splitChars sep s.data).map (fun cs => String.mk cs)

/-- JavaScript `Array.prototype.join(sep)`. -/
def jsJoin (sep : String) : List String → String
  | [] => ""
  | [s] => s
  | s :: rest => s ++ sep ++ jsJoin sep rest

/-- JavaScript `s.startsWith(pre)`. -/
def jsStartsWith (s pre : String) : Bool :=
  pre.data.isPrefixOf s.data

/-- JavaScript `s.endsWith(suf)`. -/
def jsEndsWith (s suf : String) : Bool :=
  suf.data.reverse.isPrefixOf s.data.reverse

/-- First match position of a plain pattern in a haystack, at or after
`start` (`none` when the pattern does not occur there). -/
def findFrom (pat hay : List Char) (start : Nat) : Option Nat :=
  (List.range (hay.length + 1)).find?
    (fun i => decide (start ≤ i) && pat.isPrefixOf (hay.drop i))

/-- GetSubstitution of `String.prototype.replace` for a string pattern (no
capture groups): `$$` is a literal dollar, `$&` the matched text, a
dollar-backquote pair the text before the match, `$'` the text after it,
and any other `$` sequence is kept literally (with no captures, `$1` etc.
stay as they are).  `fuel` bounds the steps; every step consumes at least
one template character, so the template length suffices. -/
def expandReplacement (matched before after : List Char) :
    Nat → List Char → List Char
  | 0, cs => cs
  | _ + 1, [] => []
  | fuel + 1, c :: rest =>
    if c = '$' then
      match rest with
      | [] => [c]
      | d :: rest2 =>
        if d = '$' then
          '$' :: expandReplacement matched before after fuel rest2
        else if d = '&' then
          matched ++ expandReplacement matched before after fuel rest2
        else if d = Char.ofNat 96 then
          before ++ expandReplacement matched before after fuel rest2
        else if d = '\'' then
          after ++ expandReplacement matched before after fuel rest2
        else '$' :: expandReplacement matched before after fuel rest
    else c :: expandReplacement matched before after fuel rest

/-- JavaScript `s.replace(pat, rep)` for a plain-string pattern: replace
the first occurrence only, expanding `$` patterns in the replacement
string; if the pattern does not occur the string is unchanged. -/
def jsReplaceFirst (s pat rep : String) : String :=
  match findFrom pat.data s.data 0 with
  | none => s
  | some i =>
    let before := s.data.take i
    let after := s.data.drop (i + pat.data.length)
    String.mk (before ++
      expandReplacement pat.data before after rep.data.length rep.data ++ after)

/-- The whitespace characters relevant to the shell inputs modelled here
(the ASCII subset of JavaScript `\s`). -/
def isJsWs (c : Char) : Bool :=
  c = ' ' ∨ c = '\t' ∨ c = '\n' ∨ c = '\r'

/-- JavaScript `s.trim()` (ASCII whitespace). -/
def jsTrim (s : String) : String :=
  String.mk (((s.data.dropWhile isJsWs).reverse.dropWhile isJsWs).reverse)

/-- JavaScript `s.toLowerCase()` on ASCII content. -/
def jsToLower (s : String) : String :=
  String.mk (s.data.map Char.toLower)

/-- JavaScript `s.toUpperCase()` on ASCII content. -/
def jsToUpper (s : String) : String :=
  String.mk (s.data.map Char.toUpper)

/-- JavaScript `s.padStart(n, c)`. -/
def jsPadStart (s : String) (n : Nat) (c : Char) : String :=
  if s.data.length ≥ n then s
  else String.mk (List.replicate (n - s.data.length) c ++ s.data)

/-- JavaScript array indexing `xs[i]`: out-of-range and negative indices
yield `undefined` (`none`). -/
def jsIndex {α : Type} (xs : List α) (i : Int) : Option α :=
  if i < 0 then none else xs.get? i.toNat

/-- JavaScript `s.slice(1)`: drop the first character. -/
def jsSliceFromOne (s : String) : String :=
  String.mk (s.data.drop 1)

/-- Splitting on runs of whitespace, the core of `s.split(/\s+/)`: a leading
run produces a leading empty chunk, a trailing run a trailing one. -/
def splitWsAux : Nat → List Char → List Char → List (List Char)
  | 0, acc, _ => [acc.reverse]
  | _ + 1, acc, [] => [acc.reverse]
  | fuel + 1, acc, c :: rest =>
    if isJsWs c then acc.reverse :: splitWsAux fuel [] (rest.dropWhile isJsWs)
    else splitWsAux fuel (c :: acc) rest

/-- JavaScript `s.split(/\s+/)`. -/
def jsSplitWs (s : String) : List String :=
  (splitWsAux (s.data.length + 1) [] s.data).map (fun cs => String.mk cs)

/-! ## JSON values

The snapshot blob of `exportFilesystem`/`importFilesystem` is modelled at
the level of JSON values: `JSON.stringify` maps a JavaScript value to the
JSON value it serializes (property order preserved, `undefined` properties
omitted, `Date` rendered as its ISO string), and `JSON.parse` of a string
is modelled by the JSON value it yields, `none` standing for a parse
error.  The string encoding itself is injective on JSON values, so this
level is faithful for the round-trip and validation claims. -/

inductive Json where
  | null : Json
  | bool (b : Bool) : Json
  | num (n : Int) : Json
  | str (s : String) : Json
  | arr (xs : List Json) : Json
  | obj (fields : List (String × Json)) : Json

/-- Field access on a JSON value: object field lookup, `none` elsewhere. -/
def Json.getField : Json → String → Option Json
  | Json.obj fields, key => alistGet fields key
  | _, _ => none

/-! ## Filesystem data model (types/wizard `FileNode`, `FileSystem`) -/

/-- One filesystem node (interface `FileNode`).  `type` is the literal
string union `'file' | 'directory'`; optional TypeScript properties become
`Option`; `Date` fields are carried as their serialized timestamp
strings. -/
structure FileNode where
  id : String
  name : String
  type : String
  path : String
  parent : Option String
  permissions : String
  owner : String
  group : String
  size : Nat
  created : String
  modified : String
  content : Option String
  children : Option (List String)
  isReadOnly : Option Bool
deriving DecidableEq

/-- The aggregate tree (interface `FileSystem`): `nodes` is the
`Record<string, FileNode>` as an insertion-ordered association list. -/
structure FileSystem where
  nodes : List (String × FileNode)
  root : String
  currentDirectory : String
deriving DecidableEq

/-- JavaScript truthiness of `node.isReadOnly` (an optional boolean). -/
def FileNode.readOnlyFlag (n : FileNode) : Bool :=
  n.isReadOnly = some true

/-! ## Path utilities (filesystemStore `resolvePath`, `getParentPath`) -/

/-- One iteration of the normalization loop of `resolvePath`: `..` pops the
last pushed segment (popping an empty stack is a no-op, `Array.pop` never
throws), `.` is dropped, anything else is pushed. -/
def normStep (acc : List String) (part : String) : List String :=
  if part = ".." then acc.dropLast
  else if part = "." then acc
  else acc ++ [part]

/-- The normalization loop of `resolvePath` over the split segments. -/
def normSegs (parts : List String) : List String :=
  parts.foldl normStep []

/-- The segments of a path as the source computes them:
`path.split('/').filter(Boolean)`. -/
def pathParts (s : String) : List String :=
  (jsSplit '/' s).filter (fun t => t ≠ "")

/-- Normalization of an absolute path:
`'/' + resolved.join('/') || '/'` over the normalized segments (the
concatenation is always nonempty, hence truthy). -/
def normalizeAbs (s : String) : String :=
  "/" ++ jsJoin "/" (normSegs (pathParts s))

/-- `resolvePath` as a pure function of the current directory path (the
store method reads that path from the node of `currentDirectory`, falling
back to `"/"`). -/
def resolvePathFrom (cwdPath : String) (path : String) : String :=
  if path = "" ∨ path = "." then cwdPath
  else if path = "~" then "/home/user"
  else if jsStartsWith path "~/" then "/home/user" ++ jsSliceFromOne path
  else if jsStartsWith path "/" then normalizeAbs path
  else normalizeAbs (cwdPath ++ "/" ++ path)

/-- `getParentPath`: split on `/`, drop empties, pop the last segment,
rejoin with a leading `/`. -/
def getParentPath (path : String) : String :=
  "/" ++ jsJoin "/" (pathParts path).dropLast

/-! ## Filesystem store operations -/

/-- `getNodeById`: record lookup (`|| null` becomes `Option`). -/
def FileSystem.getNodeById (fs : FileSystem) (id : String) : Option FileNode :=
  alistGet fs.nodes id

/-- The current-directory path used by `resolvePath`
(`filesystem.nodes[filesystem.currentDirectory]?.path || '/'`). -/
def FileSystem.cwdPath (fs : FileSystem) : String :=
  jsOrStr ((fs.getNodeById fs.currentDirectory).map FileNode.path) "/"

/-- `resolvePath` of the store. -/
def FileSystem.resolvePath (fs : FileSystem) (path : String) : String :=
  resolvePathFrom fs.cwdPath path

/-- `getNodeByPath`: resolve, then linear scan of `Object.values(nodes)`
for the first node whose cached `path` matches. -/
def FileSystem.getNodeByPath (fs : FileSystem) (path : String) :
    Option FileNode :=
  let resolved := fs.resolvePath path
  (alistValues fs.nodes).find? (fun n => n.path = resolved)

/-- `getCurrentDirectory`. -/
def FileSystem.getCurrentDirectory (fs : FileSystem) : Option FileNode :=
  fs.getNodeById fs.currentDirectory

/-- `getChildren`: the node's child ids mapped through the record,
dropping dangling ids (`.filter(Boolean)`). -/
def FileSystem.getChildren (fs : FileSystem) (nodeId : String) :
    List FileNode :=
  match fs.getNodeById nodeId with
  | none => []
  | some n =>
    if n.type ≠ "directory" then []
    else
      match n.children with
      | none => []
      | some cs => cs.filterMap (fun id => alistGet fs.nodes id)

/-- `setCurrentDirectory`: fails unless the resolved path names an existing
directory; on success only `currentDirectory` changes. -/
def FileSystem.setCurrentDirectory (fs : FileSystem) (path : String) :
    Bool × FileSystem :=
  let resolvedPath := fs.resolvePath path
  match fs.getNodeByPath resolvedPath with
  | none => (false, fs)
  | some node =>
    if node.type ≠ "directory" then (false, fs)
    else (true, { fs with currentDirectory := node.id })

/-- `createFile`.  `newId` stands for the `uuidv4()` call and `now` for
`new Date()`. -/
def FileSystem.createFile (fs : FileSystem) (newId now : String)
    (name parentPath : String) (content : String := "") :
    Option FileNode × FileSystem :=
  match fs.getNodeByPath parentPath with
  | none => (none, fs)
  | some parent =>
    if parent.type ≠ "directory" then (none, fs)
    else
      let newPath :=
        if parent.path = "/" then "/" ++ name else parent.path ++ "/" ++ name
      if (fs.getNodeByPath newPath).isSome then (none, fs)
      else
        let newFile : FileNode :=
          { id := newId, name := name, type := "file", path := newPath,
            parent := some parent.id, permissions := "rw-r--r--",
            owner := "user", group := "user", size := content.data.length,
            created := now, modified := now, content := some content,
            children := none, isReadOnly := none }
        let nodes1 := alistSet fs.nodes newFile.id newFile
        let nodes2 := alistSet nodes1 parent.id
          { parent with
            children := some ((parent.children.getD []) ++ [newFile.id]) }
        (some newFile, { fs with nodes := nodes2 })

/-- `createDirectory`. -/
def FileSystem.createDirectory (fs : FileSystem) (newId now : String)
    (name parentPath : String) : Option FileNode × FileSystem :=
  match fs.getNodeByPath parentPath with
  | none => (none, fs)
  | some parent =>
    if parent.type ≠ "directory" then (none, fs)
    else
      let newPath :=
        if parent.path = "/" then "/" ++ name else parent.path ++ "/" ++ name
      if (fs.getNodeByPath newPath).isSome then (none, fs)
      else
        let newDir : FileNode :=
          { id := newId, name := name, type := "directory", path := newPath,
            parent := some parent.id, permissions := "rwxr-xr-x",
            owner := "user", group := "user", size := 0,
            created := now, modified := now, content := none,
            children := some [], isReadOnly := none }
        let nodes1 := alistSet fs.nodes newDir.id newDir
        let nodes2 := alistSet nodes1 parent.id
          { parent with
            children := some ((parent.children.getD []) ++ [newDir.id]) }
        (some newDir, { fs with nodes := nodes2 })

/-- `collectDescendants` of `deleteNode`: the subtree walk collecting the
node and all descendants.  `fuel` bounds the recursion depth; it is called
with the number of nodes, which exceeds the height of any acyclic tree. -/
def collectDescendants (fs : FileSystem) : Nat → String → List String
  | 0, nodeId => [nodeId]
  | fuel + 1, nodeId =>
    match fs.getNodeById nodeId with
    | none => [nodeId]
    | some n =>
      if n.type = "directory" then
        match n.children with
        | some cs => nodeId :: cs.flatMap (collectDescendants fs fuel)
        | none => [nodeId]
      else [nodeId]

/-- `deleteNode`: fails on a missing node, a read-only node, or the root;
otherwise removes the whole subtree from the record and the node's id from
its parent's children. -/
def FileSystem.deleteNode (fs : FileSystem) (path : String) :
    Bool × FileSystem :=
  match fs.getNodeByPath path with
  | none => (false, fs)
  | some node =>
    if node.readOnlyFlag then (false, fs)
    else
      match node.parent with
      | none => (false, fs)
      | some parentId =>
        match fs.getNodeById parentId with
        | none => (false, fs)
        | some parent =>
          let toDelete := collectDescendants fs fs.nodes.length node.id
          let newNodes := toDelete.foldl alistDelete fs.nodes
          let newNodes2 :=
            match parent.children with
            | some cs =>
              alistSet newNodes parent.id
                { parent with children := some (cs.filter (· ≠ node.id)) }
            | none => newNodes
          (true, { fs with nodes := newNodes2 })

/-- The recursive `updatePaths` closure of `renameNode`: updates the node's
cached path by a first-occurrence string replace, renames only the target
node, bumps `modified`, and recurses through the children.  `fuel` bounds
the recursion depth as in `collectDescendants`. -/
def renameUpdate (targetId newName oldBase newBase now : String) :
    Nat → String → FileSystem → FileSystem
  | 0, _, fs => fs
  | fuel + 1, nodeId, fs =>
    match fs.getNodeById nodeId with
    | none => fs
    | some n =>
      let updated : FileNode :=
        { n with path := jsReplaceFirst n.path oldBase newBase,
                 name := if nodeId = targetId then newName else n.name,
                 modified := now }
      let fs1 : FileSystem := { fs with nodes := alistSet fs.nodes nodeId updated }
      if n.type = "directory" then
        match n.children with
        | some cs =>
          cs.foldl
            (fun acc c => renameUpdate targetId newName oldBase newBase now fuel c acc)
            fs1
        | none => fs1
      else fs1

/-- The sibling path `renameNode` aims at: the parent path of the raw
argument joined with the new name. -/
def renameTargetPath (path newName : String) : String :=
  let parentPath := getParentPath path
  if parentPath = "/" then "/" ++ newName else parentPath ++ "/" ++ newName

/-- `renameNode`: fails on a missing or read-only node, or when the sibling
path with the new name is taken; otherwise rewrites the paths of the whole
subtree. -/
def FileSystem.renameNode (fs : FileSystem) (path newName now : String) :
    Bool × FileSystem :=
  match fs.getNodeByPath path with
  | none => (false, fs)
  | some node =>
    if node.readOnlyFlag then (false, fs)
    else
      let newPath := renameTargetPath path newName
      if (fs.getNodeByPath newPath).isSome then (false, fs)
      else
        (true,
          renameUpdate node.id newName node.path newPath now
            fs.nodes.length node.id fs)

/-- `moveNode`: fails when the source is missing or read-only, the
destination is missing or not a directory, the source is the root, or a
same-named node already exists at the destination.  On success only the
moved node's own path is recomputed (no cascade to descendants). -/
def FileSystem.moveNode (fs : FileSystem) (sourcePath destPath now : String) :
    Bool × FileSystem :=
  match fs.getNodeByPath sourcePath, fs.getNodeByPath destPath with
  | some node, some destParent =>
    if destParent.type ≠ "directory" ∨ node.readOnlyFlag then (false, fs)
    else
      match node.parent.bind fs.getNodeById with
      | none => (false, fs)
      | some oldParent =>
        let newPath :=
          if destPath = "/" then "/" ++ node.name
          else destPath ++ "/" ++ node.name
        if (fs.getNodeByPath newPath).isSome then (false, fs)
        else
          let nodes1 := alistSet fs.nodes node.id
            { node with path := newPath, parent := some destParent.id,
                        modified := now }
          let nodes2 := alistSet nodes1 oldParent.id
            { oldParent with
              children :=
                oldParent.children.map
                  (fun cs => cs.filter (fun id => id ≠ node.id)) }
          let nodes3 := alistSet nodes2 destParent.id
            { destParent with
              children := some ((destParent.children.getD []) ++ [node.id]) }
          (true, { fs with nodes := nodes3 })
  | _, _ => (false, fs)

/-- `updateFileContent`: fails on a missing node, a directory, or a
read-only node. -/
def FileSystem.updateFileContent (fs : FileSystem) (path content now : String) :
    Bool × FileSystem :=
  match fs.getNodeByPath path with
  | none => (false, fs)
  | some node =>
    if node.type ≠ "file" ∨ node.readOnlyFlag then (false, fs)
    else
      let updated : FileNode :=
        { node with content := some content, size := content.data.length,
                    modified := now }
      (true, { fs with nodes := alistSet fs.nodes node.id updated })

/-- `readFile`: `null` on a missing node or a directory, otherwise the
content with `|| ''` for a missing content property. -/
def FileSystem.readFile (fs : FileSystem) (path : String) : Option String :=
  match fs.getNodeByPath path with
  | none => none
  | some node =>
    if node.type ≠ "file" then none else some (node.content.getD "")

/-! ## Snapshot export / import -/

/-- The JSON value `JSON.stringify` produces for a `FileNode`: properties in
declaration order, `undefined` optional properties omitted, `null` parent
kept, `Date` fields as their ISO strings. -/
def FileNode.toJson (n : FileNode) : Json :=
  Json.obj
    ([("id", Json.str n.id), ("name", Json.str n.name),
      ("type", Json.str n.type), ("path", Json.str n.path),
      ("parent",
        match n.parent with
        | some p => Json.str p
        | none => Json.null),
      ("permissions", Json.str n.permissions), ("owner", Json.str n.owner),
      ("group", Json.str n.group), ("size", Json.num n.size),
      ("created", Json.str n.created), ("modified", Json.str n.modified)]
    ++ (match n.content with
        | some c => [("content", Json.str c)]
        | none => [])
    ++ (match n.children with
        | some cs => [("children", Json.arr (cs.map Json.str))]
        | none => [])
    ++ (match n.isReadOnly with
        | some b => [("isReadOnly", Json.bool b)]
        | none => []))

/-- The JSON value of the whole `FileSystem` aggregate. -/
def FileSystem.toJson (fs : FileSystem) : Json :=
  Json.obj
    [("nodes", Json.obj (fs.nodes.map (fun p => (p.1, p.2.toJson)))),
     ("root", Json.str fs.root),
     ("currentDirectory", Json.str fs.currentDirectory)]

/-- `exportFilesystem`: `JSON.stringify(get().filesystem)`, modelled as the
JSON value that string encodes. -/
def exportFilesystem (fs : FileSystem) : Json :=
  fs.toJson

/-- `importFilesystem`: `JSON.parse` the blob and store whatever it yields,
with no validation of any kind; a parse failure returns `false` and leaves
the stored value untouched.  `parsed` is the outcome of `JSON.parse` on the
input string (`none` when parsing throws), and the stored `filesystem` slot
is carried at the dynamic (JSON value) level because the source can store
arbitrary parsed values in it. -/
def importFilesystem (parsed : Option Json) (stored : Json) : Bool × Json :=
  match parsed with
  | some v => (true, v)
  | none => (false, stored)

/-- Modelled from the spec: the shape the §3 data model requires of the
stored aggregate — an object with a `nodes` object and `root` and
`currentDirectory` ids that name entries of it.  No function in the source
performs this check (that is what claim C9 is about). -/
def jsonIsFilesystemShape (j : Json) : Bool :=
  match j.getField "nodes", j.getField "root", j.getField "currentDirectory" with
  | some (Json.obj nodeFields), some (Json.str r), some (Json.str c) =>
    nodeFields.any (fun p => p.1 = r) && nodeFields.any (fun p => p.1 = c)
  | _, _, _ => false

/-! ## The seeded initial filesystem (`createInitialFilesystem`)

The builder's `uuidv4()` ids are modelled by the deterministic strings
`"id0"`, `"id1"`, ... in creation order, and `new Date()` by the fixed
timestamp `seedTime`.  The nodes appear in the record in insertion order
with the children lists exactly as pushed by the builder. -/

def seedTime : String := "2026-01-01T00:00:00.000Z"

/-- The `createNode` helper of `createInitialFilesystem`. -/
def mkSeedNode (id name type parentPath : String) (parentId : Option String)
    (content : Option String := none) (isReadOnly : Option Bool := none) :
    FileNode :=
  { id := id, name := name, type := type,
    path := if parentPath = "/" then "/" ++ name else parentPath ++ "/" ++ name,
    parent := parentId,
    permissions := if type = "directory" then "rwxr-xr-x" else "rw-r--r--",
    owner := "user", group := "user",
    size := match content with | some c => c.data.length | none => 0,
    created := seedTime, modified := seedTime,
    content := content,
    children := if type = "directory" then some [] else none,
    isReadOnly := isReadOnly }

def seedReadmeContent : String :=
  "# WIZARD OS\n  \nWelcome to your controlled environment.\n\n## Quick Start\n- Use the terminal to navigate and execute commands\n- Complete missions to unlock new skills\n- Your work is saved automatically\n\n## Directory Structure\n- ~/workspace - Your working directory\n- ~/projects - Saved projects\n- ~/artifacts - Mission artifacts\n- ~/notes - Your notes and evidence\n- ~/downloads - Export staging\n\nType 'help' in terminal for available commands.\n"

def seedBashrcContent : String :=
  "# ~/.bashrc\nexport PS1='\\u@wizard:\\w\\$ '\nexport PATH=$PATH:/usr/local/bin\nalias ll='ls -la'\nalias cls='clear'\n"

def seedSyslogContent : String :=
  "[" ++ seedTime ++ "] WIZARD OS initialized\n[" ++ seedTime ++
  "] Filesystem mounted\n[" ++ seedTime ++ "] User session started\n[" ++
  seedTime ++ "] All systems nominal\n"

def seedRoot : FileNode :=
  { mkSeedNode "id0" "" "directory" "" none with
    path := "/", permissions := "rwxr-xr-x",
    children := some ["id1", "id2", "id9", "id11", "id15"] }

def seedSystem : FileNode :=
  mkSeedNode "id1" "system" "directory" "/" (some "id0") none (some true)

def seedHome : FileNode :=
  { mkSeedNode "id2" "home" "directory" "/" (some "id0") with
    children := some ["id3"] }

def seedUser : FileNode :=
  { mkSeedNode "id3" "user" "directory" "/home" (some "id2") with
    children := some ["id4", "id5", "id6", "id7", "id8", "id16", "id17"] }

def seedWorkspace : FileNode :=
  mkSeedNode "id4" "workspace" "directory" "/home/user" (some "id3")

def seedProjects : FileNode :=
  mkSeedNode "id5" "projects" "directory" "/home/user" (some "id3")

def seedArtifacts : FileNode :=
  mkSeedNode "id6" "artifacts" "directory" "/home/user" (some "id3")

def seedNotes : FileNode :=
  mkSeedNode "id7" "notes" "directory" "/home/user" (some "id3")

def seedDownloads : FileNode :=
  mkSeedNode "id8" "downloads" "directory" "/home/user" (some "id3")

def seedMissions : FileNode :=
  { mkSeedNode "id9" "missions" "directory" "/" (some "id0") with
    children := some ["id10"] }

def seedActive : FileNode :=
  mkSeedNode "id10" "active" "directory" "/missions" (some "id9")

def seedData : FileNode :=
  { mkSeedNode "id11" "data" "directory" "/" (some "id0") with
    children := some ["id12", "id13", "id14"] }

def seedLogs : FileNode :=
  { mkSeedNode "id12" "logs" "directory" "/data" (some "id11") with
    children := some ["id18"] }

def seedNetwork : FileNode :=
  mkSeedNode "id13" "network" "directory" "/data" (some "id11")

def seedProcesses : FileNode :=
  mkSeedNode "id14" "processes" "directory" "/data" (some "id11")

def seedSnapshots : FileNode :=
  mkSeedNode "id15" "snapshots" "directory" "/" (some "id0")

def seedReadme : FileNode :=
  mkSeedNode "id16" "README.md" "file" "/home/user" (some "id3")
    (some seedReadmeContent)

def seedBashrc : FileNode :=
  mkSeedNode "id17" ".bashrc" "file" "/home/user" (some "id3")
    (some seedBashrcContent)

def seedSyslog : FileNode :=
  mkSeedNode "id18" "system.log" "file" "/data/logs" (some "id12")
    (some seedSyslogContent)

/-- The tree `createInitialFilesystem` returns: root `id0`, current
directory the user's home `id3`. -/
def seedFs : FileSystem :=
  { nodes :=
      [("id0", seedRoot), ("id1", seedSystem), ("id2", seedHome),
       ("id3", seedUser), ("id4", seedWorkspace), ("id5", seedProjects),
       ("id6", seedArtifacts), ("id7", seedNotes), ("id8", seedDownloads),
       ("id9", seedMissions), ("id10", seedActive), ("id11", seedData),
       ("id12", seedLogs), ("id13", seedNetwork), ("id14", seedProcesses),
       ("id15", seedSnapshots), ("id16", seedReadme), ("id17", seedBashrc),
       ("id18", seedSyslog)],
    root := "id0",
    currentDirectory := "id3" }

/-! ## Shell interpreter (terminalStore)

Nondeterministic collaborator inputs are gathered in `SysEnv`; calls to the
integrity-reporting collaborator (`useSystemStore.getState().updateIntegrity`)
are collected as a list of deltas in each result. -/

/-- One entry of the rendered history (interface `TerminalCommand`). -/
structure TerminalCommand where
  id : String
  input : String
  output : String
  exitCode : Int
  timestamp : String
  workingDirectory : String
deriving DecidableEq

/-- The session fields of the terminal store (interface `TerminalState`). -/
structure TermState where
  history : List TerminalCommand
  commandHistory : List String
  historyIndex : Int
  currentInput : String
  workingDirectory : String
  environment : List (String × String)
  aliases : List (String × String)
deriving DecidableEq

/-- The initial terminal session state of the store. -/
def termInit : TermState :=
  { history := [], commandHistory := [], historyIndex := -1,
    currentInput := "", workingDirectory := "/home/user",
    environment :=
      [("HOME", "/home/user"), ("USER", "user"), ("SHELL", "/bin/bash"),
       ("PATH", "/usr/local/bin:/usr/bin:/bin"),
       ("PS1", "\\u@wizard:\\w\\$ ")],
    aliases :=
      [("ll", "ls -la"), ("la", "ls -a"), ("cls", "clear"), ("c", "clear")] }

/-- External collaborator inputs of one invocation: the authenticated user,
wall-clock readings, the locale date formatter of `ls -l`, and the uuid
stream (`cmdId` for the command record, `mkId k` for the k-th node created
by the handler). -/
structure SysEnv where
  username : Option String
  dateString : String
  uptimeSecs : Nat
  nowIso : String
  cmdId : String
  mkId : Nat → String
  formatDate : String → String

/-- What a handler receives: parsed arguments come separately; the
filesystem handle, the terminal session and the collaborators. -/
structure Ctx where
  fs : FileSystem
  term : TermState
  env : SysEnv

/-- What a handler returns: output text and exit code, plus the possibly
mutated filesystem and the integrity deltas reported during the call. -/
structure CmdResult where
  output : String
  exitCode : Int
  fs : FileSystem
  deltas : List Int

/-- JavaScript truthiness of an optional argument string (`!args[0]`). -/
def argTruthy : Option String → Bool
  | none => false
  | some s => s ≠ ""

/-- A character that can extend an unquoted token chunk
(`[^\s"]` of the tokenizing pattern). -/
def isTokenChar (c : Char) : Bool :=
  !(isJsWs c) && c != '"'

/-- Greedy match of `(?:[^\s"]+|"[^"]*")+` at the start of the input: munch
unquoted runs and complete quoted runs for as long as possible; an empty
first component means no token starts here. -/
def munchUnits : Nat → List Char → List Char × List Char
  | 0, cs => ([], cs)
  | _ + 1, [] => ([], [])
  | fuel + 1, c :: rest =>
    if isTokenChar c then
      let run := (c :: rest).takeWhile isTokenChar
      let rest' := (c :: rest).dropWhile isTokenChar
      let (more, rest'') := munchUnits fuel rest'
      (run ++ more, rest'')
    else if c = '"' then
      let inner := rest.takeWhile (fun d => d != '"')
      let rest1 := rest.dropWhile (fun d => d != '"')
      match rest1 with
      | '"' :: rest' =>
        let (more, rest'') := munchUnits fuel rest'
        ('"' :: (inner ++ '"' :: more), rest'')
      | _ => ([], c :: rest)
    else ([], c :: rest)

/-- Positions where no token can start are skipped one character at a
time, as the global regex scan does. -/
def tokenizeAux : Nat → List Char → List String
  | 0, _ => []
  | _ + 1, [] => []
  | fuel + 1, c :: rest =>
    match munchUnits (c :: rest).length (c :: rest) with
    | ([], _) => tokenizeAux fuel rest
    | (tok, rest') => String.mk tok :: tokenizeAux fuel rest'

/-- `input.match(/(?:[^\s"]+|"[^"]*")+/g) || []`. -/
def tokenize (s : String) : List String :=
  tokenizeAux s.data.length s.data

/-- `a.replace(/^"|"$/g, '')`: strip one leading and one trailing double
quote. -/
def jsStripEdgeDoubleQuotes (s : String) : String :=
  let cs := s.data
  let cs1 :=
    match cs with
    | '"' :: rest => rest
    | _ => cs
  let cs2 := if cs1.getLast? = some '"' then cs1.dropLast else cs1
  String.mk cs2

/-- `text.replace(/^["']|["']$/g, '')` of `echo`: strip one leading and one
trailing quote of either kind. -/
def jsStripEdgeQuotes (s : String) : String :=
  let isQ : Char → Bool := fun c => c = '"' || c = '\''
  let cs := s.data
  let cs1 :=
    match cs with
    | c :: rest => if isQ c then rest else cs
    | [] => []
  let cs2 :=
    match cs1.getLast? with
    | some c => if isQ c then cs1.dropLast else cs1
    | none => cs1
  String.mk cs2

/-- JavaScript `parseInt` on decimal input: skip whitespace, optional sign,
leading digits; `none` is `NaN`. -/
def jsParseInt (s : String) : Option Int :=
  let cs := s.data.dropWhile isJsWs
  let signAndRest : Int × List Char :=
    match cs with
    | '-' :: rest => (-1, rest)
    | '+' :: rest => (1, rest)
    | _ => (1, cs)
  let digits := signAndRest.2.takeWhile Char.isDigit
  if digits = [] then none
  else
    some (signAndRest.1 *
      (digits.foldl (fun acc c => acc * 10 + (c.toNat - '0'.toNat)) 0 : Nat))

/-- `xs.slice(0, n)` where `n` may be `NaN` (`none`): `NaN` converts to 0. -/
def jsSliceUpTo {α : Type} (xs : List α) (n : Option Int) : List α :=
  match n with
  | none => []
  | some i =>
    if 0 ≤ i then xs.take i.toNat
    else xs.take (xs.length - min xs.length (-i).toNat)

/-- `xs.slice(-n)` where `n` may be `NaN` (`none`): `NaN` converts to 0 and
yields the whole list. -/
def jsSliceLast {α : Type} (xs : List α) (n : Option Int) : List α :=
  match n with
  | none => xs
  | some i =>
    if 0 < i then xs.drop (xs.length - min xs.length i.toNat)
    else xs.drop (-i).toNat

/-- The metacharacters of the literal-pattern fragment of regular
expressions modelled here. -/
def regexMetaChars : List Char :=
  ['\\', '^', '$', '.', '*', '+', '?', '(', ')', '[', ']', '|',
   Char.ofNat 123, Char.ofNat 125]

/-- Model of `new RegExp(pattern, 'gi')` restricted to literal patterns: a
pattern free of metacharacters compiles (every such pattern is a valid
regular expression matching itself case-insensitively); patterns containing
metacharacters are outside the modelled fragment and are mapped to `none`
(the handler's `catch` branch).  All grep claims are settled inside the
modelled fragment, where this is exact. -/
def jsRegExpLit? (pattern : String) : Option (List Char) :=
  if pattern.data.all (fun c => !(regexMetaChars.contains c)) then
    some (pattern.data.map Char.toLower)
  else none

/-- `regex.test(line)` for a global (`g`) regular expression: the search
starts at the carried `lastIndex`; success advances `lastIndex` past the
match, failure resets it to 0.  Returns the verdict and the new
`lastIndex`. -/
def jsTestG (pat : List Char) (lastIndex : Nat) (line : String) : Bool × Nat :=
  let hay := line.data.map Char.toLower
  match findFrom pat hay lastIndex with
  | some i => (true, i + pat.length)
  | none => (false, 0)

/-- The stateful filter `content.split('\n').filter(line => regex.test(line))`:
one regex object, hence one `lastIndex`, is shared across all lines. -/
def grepFilter (pat : List Char) (lines : List String) : List String :=
  (lines.foldl
    (fun acc line =>
      let r := jsTestG pat acc.2 line
      (if r.1 then acc.1 ++ [line] else acc.1, r.2))
    (([] : List String), 0)).1

/-! ## Built-in command handlers -/

def helpText : String :=
  "WIZARD OS - Available Commands\n\nNavigation:\n  cd <dir>       Change directory\n  pwd            Print working directory\n  ls [dir]       List directory contents\n\nFile Operations:\n  cat <file>     Display file contents\n  touch <file>   Create empty file\n  mkdir <dir>    Create directory\n  rm <path>      Remove file/directory\n  cp <src> <dst> Copy file\n  mv <src> <dst> Move file\n  echo <text>    Print text\n\nSystem:\n  whoami         Display current user\n  hostname       Display hostname\n  uname          System information\n  date           Current date/time\n  uptime         System uptime\n  clear          Clear screen\n  history        Command history\n  exit           Exit terminal\n\nUtilities:\n  grep <pat> <f> Search in file\n  head <file>    First 10 lines\n  tail <file>    Last 10 lines\n  wc <file>      Count lines/words\n\nType 'man <cmd>' for detailed help."

def cmdHelp (_args : List String) (ctx : Ctx) : CmdResult :=
  { output := helpText, exitCode := 0, fs := ctx.fs, deltas := [] }

def cmdPwd (_args : List String) (ctx : Ctx) : CmdResult :=
  { output := jsOrStr (ctx.fs.getCurrentDirectory.map FileNode.path) "/",
    exitCode := 0, fs := ctx.fs, deltas := [] }

def cmdCd (args : List String) (ctx : Ctx) : CmdResult :=
  let target := jsOrStr args.head? "~"
  let r := ctx.fs.setCurrentDirectory target
  { output := if r.1 then "" else "cd: " ++ target ++ ": No such directory",
    exitCode := if r.1 then 0 else 1, fs := r.2, deltas := [] }

def cmdLs (args : List String) (ctx : Ctx) : CmdResult :=
  let showAll := args.contains "-a" || args.contains "-la" || args.contains "-al"
  let longFormat := args.contains "-l" || args.contains "-la" || args.contains "-al"
  let targetPath := (args.filter (fun a => !(jsStartsWith a "-"))).head?
  let targetNode :=
    if argTruthy targetPath then ctx.fs.getNodeByPath (targetPath.getD "")
    else ctx.fs.getCurrentDirectory
  match targetNode with
  | none =>
    let disp := match targetPath with | some s => s | none => "undefined"
    { output := "ls: cannot access '" ++ disp ++ "': No such file or directory",
      exitCode := 1, fs := ctx.fs, deltas := [] }
  | some node =>
    if node.type = "file" then
      { output := node.name, exitCode := 0, fs := ctx.fs, deltas := [] }
    else
      let children := ctx.fs.getChildren node.id
      let items :=
        if showAll then children
        else children.filter (fun c => !(jsStartsWith c.name "."))
      if longFormat then
        let lines := items.map (fun item =>
          (if item.type = "directory" then "d" else "-") ++ item.permissions ++
          " " ++ item.owner ++ " " ++ item.group ++ " " ++
          jsPadStart (toString item.size) 8 ' ' ++ " " ++
          ctx.env.formatDate item.modified ++ " " ++ item.name)
        { output := jsJoin "\n" lines, exitCode := 0, fs := ctx.fs, deltas := [] }
      else
        let names := items.map (fun item =>
          if item.type = "directory" then item.name ++ "/" else item.name)
        { output := jsJoin "  " names, exitCode := 0, fs := ctx.fs, deltas := [] }

def cmdCat (args : List String) (ctx : Ctx) : CmdResult :=
  if ¬ argTruthy args.head? then
    { output := "cat: missing operand", exitCode := 1, fs := ctx.fs, deltas := [] }
  else
    let a0 := args.headD ""
    match ctx.fs.readFile a0 with
    | none =>
      { output := "cat: " ++ a0 ++ ": No such file", exitCode := 1,
        fs := ctx.fs, deltas := [] }
    | some content =>
      { output := content, exitCode := 0, fs := ctx.fs, deltas := [] }

def cmdTouch (args : List String) (ctx : Ctx) : CmdResult :=
  if ¬ argTruthy args.head? then
    { output := "touch: missing operand", exitCode := 1, fs := ctx.fs, deltas := [] }
  else
    let a0 := args.headD ""
    let path := ctx.fs.resolvePath a0
    if (ctx.fs.getNodeByPath path).isSome then
      { output := "", exitCode := 0, fs := ctx.fs, deltas := [] }
    else
      let parentPath := getParentPath path
      let name := ((jsSplit '/' path).getLast?).getD ""
      let r := ctx.fs.createFile (ctx.env.mkId 0) ctx.env.nowIso name parentPath
      { output := if r.1.isSome then "" else "touch: cannot create '" ++ a0 ++ "'",
        exitCode := if r.1.isSome then 0 else 1, fs := r.2, deltas := [] }

/-- The target loop of `mkdir`: each `createDirectory` failure aborts with
exit 1 unless `-p` was given, in which case it is skipped silently. -/
def mkdirLoop (env : SysEnv) (createParents : Bool) :
    List String → Nat → FileSystem → CmdResult
  | [], _, fs => { output := "", exitCode := 0, fs := fs, deltas := [] }
  | target :: rest, k, fs =>
    let path := fs.resolvePath target
    let parentPath := getParentPath path
    let name := ((jsSplit '/' path).getLast?).getD ""
    let r := fs.createDirectory (env.mkId k) env.nowIso name parentPath
    if r.1.isNone ∧ ¬ createParents then
      { output := "mkdir: cannot create directory '" ++ target ++ "'",
        exitCode := 1, fs := r.2, deltas := [] }
    else mkdirLoop env createParents rest (k + 1) r.2

def cmdMkdir (args : List String) (ctx : Ctx) : CmdResult :=
  if ¬ argTruthy args.head? then
    { output := "mkdir: missing operand", exitCode := 1, fs := ctx.fs, deltas := [] }
  else
    let createParents := args.contains "-p"
    let targetPaths := args.filter (fun a => !(jsStartsWith a "-"))
    mkdirLoop ctx.env createParents targetPaths 0 ctx.fs

/-- The target loop of `rm`.  The integrity collaborator is invoked with
-25 for targets under `/system` or at `/home/user` before the deletion is
attempted; the return value of `deleteNode` is ignored. -/
def rmLoop (recursive : Bool) :
    List String → FileSystem → List Int → CmdResult
  | [], fs, ds => { output := "", exitCode := 0, fs := fs, deltas := ds }
  | target :: rest, fs, ds =>
    match fs.getNodeByPath target with
    | none =>
      { output := "rm: cannot remove '" ++ target ++
          "': No such file or directory",
        exitCode := 1, fs := fs, deltas := ds }
    | some node =>
      if node.type = "directory" ∧ recursive = false then
        { output := "rm: cannot remove '" ++ target ++ "': Is a directory",
          exitCode := 1, fs := fs, deltas := ds }
      else
        let ds' :=
          if jsStartsWith node.path "/system" ∨ node.path = "/home/user" then
            ds ++ [-25]
          else ds
        rmLoop recursive rest (fs.deleteNode target).2 ds'

def cmdRm (args : List String) (ctx : Ctx) : CmdResult :=
  if ¬ argTruthy args.head? then
    { output := "rm: missing operand", exitCode := 1, fs := ctx.fs, deltas := [] }
  else
    let recursive := args.contains "-r" || args.contains "-rf"
    let targets := args.filter (fun a => !(jsStartsWith a "-"))
    rmLoop recursive targets ctx.fs []

def cmdEcho (args : List String) (ctx : Ctx) : CmdResult :=
  { output := jsStripEdgeQuotes (jsJoin " " args), exitCode := 0,
    fs := ctx.fs, deltas := [] }

def cmdWhoami (_args : List String) (ctx : Ctx) : CmdResult :=
  { output := jsOrStr ctx.env.username "user", exitCode := 0,
    fs := ctx.fs, deltas := [] }

def cmdHostname (_args : List String) (ctx : Ctx) : CmdResult :=
  { output := "wizard-vm", exitCode := 0, fs := ctx.fs, deltas := [] }

def cmdUname (args : List String) (ctx : Ctx) : CmdResult :=
  { output :=
      if args.contains "-a" then "WizardOS 1.0.0 wizard-vm x86_64 GNU/Linux"
      else "WizardOS",
    exitCode := 0, fs := ctx.fs, deltas := [] }

def cmdDate (_args : List String) (ctx : Ctx) : CmdResult :=
  { output := ctx.env.dateString, exitCode := 0, fs := ctx.fs, deltas := [] }

def cmdUptime (_args : List String) (ctx : Ctx) : CmdResult :=
  let up := ctx.env.uptimeSecs
  { output := "up " ++ toString (up / 3600) ++ ":" ++
      jsPadStart (toString (up % 3600 / 60)) 2 '0' ++ ":" ++
      jsPadStart (toString (up % 60)) 2 '0',
    exitCode := 0, fs := ctx.fs, deltas := [] }

def cmdClear (_args : List String) (ctx : Ctx) : CmdResult :=
  { output := "__CLEAR__", exitCode := 0, fs := ctx.fs, deltas := [] }

def cmdHistory (_args : List String) (ctx : Ctx) : CmdResult :=
  let lines := ctx.term.commandHistory.mapIdx
    (fun i cmd => "  " ++ toString (i + 1) ++ "  " ++ cmd)
  { output := jsJoin "\n" lines, exitCode := 0, fs := ctx.fs, deltas := [] }

def cmdExit (_args : List String) (ctx : Ctx) : CmdResult :=
  { output := "__EXIT__", exitCode := 0, fs := ctx.fs, deltas := [] }

def cmdHead (args : List String) (ctx : Ctx) : CmdResult :=
  let lines :=
    jsParseInt (jsOrStr ((args.find? (fun a => jsStartsWith a "-")).map
      jsSliceFromOne) "10")
  let file := args.find? (fun a => !(jsStartsWith a "-"))
  if ¬ argTruthy file then
    { output := "head: missing operand", exitCode := 1, fs := ctx.fs, deltas := [] }
  else
    match ctx.fs.readFile (file.getD "") with
    | none =>
      { output := "head: " ++ file.getD "" ++ ": No such file", exitCode := 1,
        fs := ctx.fs, deltas := [] }
    | some content =>
      { output := jsJoin "\n" (jsSliceUpTo (jsSplit '\n' content) lines),
        exitCode := 0, fs := ctx.fs, deltas := [] }

def cmdTail (args : List String) (ctx : Ctx) : CmdResult :=
  let lines :=
    jsParseInt (jsOrStr ((args.find? (fun a => jsStartsWith a "-")).map
      jsSliceFromOne) "10")
  let file := args.find? (fun a => !(jsStartsWith a "-"))
  if ¬ argTruthy file then
    { output := "tail: missing operand", exitCode := 1, fs := ctx.fs, deltas := [] }
  else
    match ctx.fs.readFile (file.getD "") with
    | none =>
      { output := "tail: " ++ file.getD "" ++ ": No such file", exitCode := 1,
        fs := ctx.fs, deltas := [] }
    | some content =>
      { output := jsJoin "\n" (jsSliceLast (jsSplit '\n' content) lines),
        exitCode := 0, fs := ctx.fs, deltas := [] }

def cmdWc (args : List String) (ctx : Ctx) : CmdResult :=
  if ¬ argTruthy args.head? then
    { output := "wc: missing operand", exitCode := 1, fs := ctx.fs, deltas := [] }
  else
    let file := args.headD ""
    match ctx.fs.readFile file with
    | none =>
      { output := "wc: " ++ file ++ ": No such file", exitCode := 1,
        fs := ctx.fs, deltas := [] }
    | some content =>
      let lineCount := (jsSplit '\n' content).length
      let wordCount := ((jsSplitWs content).filter (fun w => w ≠ "")).length
      let charCount := content.data.length
      { output := "  " ++ toString lineCount ++ "   " ++ toString wordCount ++
          "  " ++ toString charCount ++ " " ++ file,
        exitCode := 0, fs := ctx.fs, deltas := [] }

def cmdGrep (args : List String) (ctx : Ctx) : CmdResult :=
  match args with
  | pattern :: file :: _ =>
    (match ctx.fs.readFile file with
     | none =>
       { output := "grep: " ++ file ++ ": No such file", exitCode := 1,
         fs := ctx.fs, deltas := [] }
     | some content =>
       match jsRegExpLit? pattern with
       | none =>
         { output := "grep: invalid pattern '" ++ pattern ++ "'",
           exitCode := 2, fs := ctx.fs, deltas := [] }
       | some pat =>
         let found := grepFilter pat (jsSplit '\n' content)
         { output := jsJoin "\n" found,
           exitCode := if found.length > 0 then 0 else 1,
           fs := ctx.fs, deltas := [] })
  | _ =>
    { output := "grep: missing pattern or file", exitCode := 1,
      fs := ctx.fs, deltas := [] }

/-- The keys of the dispatch table, including the unreachable multi-word
literal at the end. -/
def commandNames : List String :=
  ["help", "pwd", "cd", "ls", "cat", "touch", "mkdir", "rm", "echo",
   "whoami", "hostname", "uname", "date", "uptime", "clear", "history",
   "exit", "head", "tail", "wc", "grep", "man", "rm -rf /"]

def cmdMan (args : List String) (ctx : Ctx) : CmdResult :=
  if ¬ argTruthy args.head? then
    { output := "What manual page do you want?", exitCode := 1,
      fs := ctx.fs, deltas := [] }
  else
    let cmd := args.headD ""
    if ¬ commandNames.contains cmd then
      { output := "No manual entry for " ++ cmd, exitCode := 1,
        fs := ctx.fs, deltas := [] }
    else
      { output := jsToUpper cmd ++ "(1) - Type 'help' for command list",
        exitCode := 0, fs := ctx.fs, deltas := [] }

/-- The scripted catastrophic entry `commands['rm -rf /']`: report -100 and
pretend, without touching the filesystem. -/
def cmdRmRfSlash (_args : List String) (ctx : Ctx) : CmdResult :=
  { output := "rm: destroying filesystem...", exitCode := 0,
    fs := ctx.fs, deltas := [-100] }

/-- The dispatch table `commands` (its keys are `commandNames`). -/
def commandHandler : String → Option (List String → Ctx → CmdResult)
  | "help" => some cmdHelp
  | "pwd" => some cmdPwd
  | "cd" => some cmdCd
  | "ls" => some cmdLs
  | "cat" => some cmdCat
  | "touch" => some cmdTouch
  | "mkdir" => some cmdMkdir
  | "rm" => some cmdRm
  | "echo" => some cmdEcho
  | "whoami" => some cmdWhoami
  | "hostname" => some cmdHostname
  | "uname" => some cmdUname
  | "date" => some cmdDate
  | "uptime" => some cmdUptime
  | "clear" => some cmdClear
  | "history" => some cmdHistory
  | "exit" => some cmdExit
  | "head" => some cmdHead
  | "tail" => some cmdTail
  | "wc" => some cmdWc
  | "grep" => some cmdGrep
  | "man" => some cmdMan
  | "rm -rf /" => some cmdRmRfSlash
  | _ => none

/-- The outcome of one `executeCommand` invocation: the command record it
returns, the filesystem and session state after the `set` calls, and the
integrity deltas reported to the collaborator. -/
structure ExecResult where
  command : TerminalCommand
  fs : FileSystem
  term : TermState
  deltas : List Int

/-- The parsing front end of `executeCommand`: trim, one level of alias
expansion by first-occurrence replacement of the first whitespace word,
tokenization, and the lowercased command token plus the quote-stripped
arguments. -/
def dispatchInput (term : TermState) (rawInput : String) :
    String × List String :=
  let input := jsTrim rawInput
  let firstWord := (jsSplitWs input).headD ""
  let expandedInput :=
    match alistGet term.aliases firstWord with
    | some a => if a = "" then input else jsReplaceFirst input firstWord a
    | none => input
  let parts := tokenize expandedInput
  (jsToLower (parts.headD ""), (parts.drop 1).map jsStripEdgeDoubleQuotes)

/-- `executeCommand`: parse through `dispatchInput`, case-insensitive
dispatch on the first token, then the bookkeeping `set` (screen history,
deduplicated command history, cursor and draft reset, working-directory
mirror).  The usage-stats collaborator call is outside the modelled
interface. -/
def executeCommand (env : SysEnv) (rawInput : String) (fs : FileSystem)
    (term : TermState) : ExecResult :=
  let cmd := (dispatchInput term rawInput).1
  let args := (dispatchInput term rawInput).2
  let stepped : String × Int × FileSystem × List Int :=
    if cmd = "" then ("", 0, fs, [])
    else
      match commandHandler cmd with
      | some h =>
        let r := h args { fs := fs, term := term, env := env }
        (r.output, r.exitCode, r.fs, r.deltas)
      | none => (cmd ++ ": command not found", 127, fs, [])
  let output := stepped.1
  let exitCode := stepped.2.1
  let fs' := stepped.2.2.1
  let deltas := stepped.2.2.2
  let wd := jsOrStr (fs'.getCurrentDirectory.map FileNode.path) "/"
  let command : TerminalCommand :=
    { id := env.cmdId, input := rawInput, output := output,
      exitCode := exitCode, timestamp := env.nowIso, workingDirectory := wd }
  let term' : TermState :=
    { term with
      history := if output = "__CLEAR__" then [] else term.history ++ [command],
      commandHistory :=
        if cmd ≠ "" then
          (term.commandHistory.filter (fun c => c ≠ rawInput)) ++ [rawInput]
        else term.commandHistory,
      historyIndex := -1, currentInput := "", workingDirectory := wd }
  { command := command, fs := fs', term := term', deltas := deltas }

/-- `navigateHistory`: cursor movement through the deduplicated command
history; `direction` is the string union `'up' | 'down'`. -/
def navigateHistory (direction : String) (st : TermState) :
    String × TermState :=
  if st.commandHistory.length = 0 then (st.currentInput, st)
  else if direction = "up" then
    let newIndex : Int :=
      if st.historyIndex = -1 then (st.commandHistory.length : Int) - 1
      else max 0 (st.historyIndex - 1)
    let newInput := (jsIndex st.commandHistory newIndex).getD ""
    (newInput, { st with historyIndex := newIndex, currentInput := newInput })
  else
    let newIndex : Int :=
      if st.historyIndex = -1 then -1
      else min ((st.commandHistory.length : Int) - 1) (st.historyIndex + 1)
    if st.historyIndex = (st.commandHistory.length : Int) - 1 then
      ("", { st with historyIndex := -1, currentInput := "" })
    else
      let newInput := (jsIndex st.commandHistory newIndex).getD ""
      (newInput, { st with historyIndex := newIndex, currentInput := newInput })

/-- `setCurrentInput`. -/
def setCurrentInput (input : String) (st : TermState) : TermState :=
  { st with currentInput := input, historyIndex := -1 }

/-! ## Proof-side definitions -/

/-- A string is canonical when it is the leading-slash join of its own
segments and those segments are free of `.` and `..` — exactly the image of
the normalizer. -/
def isCanonicalAbs (s : String) : Bool :=
  (s == "/" ++ jsJoin "/" (pathParts s)) &&
  (pathParts s).all (fun t => t != "." && t != "..")

/-- The per-node update `updatePaths` applies to a visited node. -/
def renameFn (targetId newName oldBase newBase now : String)
    (nodeId : String) (n : FileNode) : FileNode :=
  { n with path := jsReplaceFirst n.path oldBase newBase,
           name := if nodeId = targetId then newName else n.name,
           modified := now }

/-- The ids `updatePaths` visits, in visit order (children lists are
unchanged during the traversal, so the order computed on the starting state
is the actual one). -/
def renameVisits (fs : FileSystem) : Nat → String → List String
  | 0, _ => []
  | fuel + 1, nodeId =>
    match fs.getNodeById nodeId with
    | none => []
    | some n =>
      if n.type = "directory" then
        match n.children with
        | some cs => nodeId :: cs.flatMap (renameVisits fs fuel)
        | none => [nodeId]
      else [nodeId]

/-- Two states with the same node domain and the same `type` and `children`
on every node (the fields the traversal consults). -/
def sameStructure (fs g : FileSystem) : Prop :=
  ∀ id : String,
    (alistGet fs.nodes id).map (fun n => (n.type, n.children))
      = (alistGet g.nodes id).map (fun n => (n.type, n.children))

/-! ## Claims -/

/-- A fixed assignment of the collaborator inputs, used to evaluate the
interpreter at concrete inputs. -/
def probeEnv : SysEnv :=
  { username := some "user", dateString := "probe-date", uptimeSecs := 0,
    nowIso := "t1", cmdId := "cmd1", mkId := fun k => "n" ++ toString k,
    formatDate := fun s => s }

/-- C1: after `moveNode` of the container `/data/logs` into `/home`, the
moved node's own cached path is recomputed to `/home/logs`, but its
descendant `system.log` still carries the stale cached path
`/data/logs/system.log` while its parent is still the moved container — so
the path invariant `path = path(parent) + "/" + name` fails for the
descendant after a successful move; the cascade exists only in
`renameNode`. -/
theorem moveNode_leaves_descendant_paths_stale :
    (seedFs.moveNode "/data/logs" "/home" "t1").1 = true ∧
    ((alistGet (seedFs.moveNode "/data/logs" "/home" "t1").2.nodes
        "id18").map FileNode.path = some "/data/logs/system.log") ∧
    ((alistGet (seedFs.moveNode "/data/logs" "/home" "t1").2.nodes
        "id18").map FileNode.parent = some (some "id12")) ∧
    ((alistGet (seedFs.moveNode "/data/logs" "/home" "t1").2.nodes
        "id12").map FileNode.path = some "/home/logs") ∧
    ("/home/logs" ++ "/" ++ "system.log" : String) ≠ "/data/logs/system.log" :=
  ⟨rfl, rfl, rfl, rfl, by decide⟩

/-- C3: the dispatch of `executeCommand` lowercases the first token and
looks that up, so the multi-word table key `rm -rf /` is unreachable: the
input `rm -rf /` tokenizes to `rm` plus arguments and runs the generic `rm`
handler, which reports no integrity delta for the root (whose deletion then
fails silently) — no -100 delta is reported and the output is empty, while
the table does contain the scripted entry. -/
theorem rm_rf_root_literal_is_unreachable :
    (commandHandler "rm -rf /").isSome = true ∧
    tokenize "rm -rf /" = ["rm", "-rf", "/"] ∧
    jsToLower ((tokenize "rm -rf /").headD "") = "rm" ∧
    (executeCommand probeEnv "rm -rf /" seedFs termInit).command.output = "" ∧
    (executeCommand probeEnv "rm -rf /" seedFs termInit).command.exitCode = 0 ∧
    (executeCommand probeEnv "rm -rf /" seedFs termInit).deltas = [] ∧
    (executeCommand probeEnv "rm -rf /" seedFs termInit).fs = seedFs :=
  ⟨rfl, rfl, rfl, rfl, rfl, rfl, rfl⟩

/-- C5: the `grep` handler creates one global (`g`-flagged) regular
expression and calls its stateful `test` inside `filter`, so the carried
`lastIndex` makes a second identical matching line test `false`.  On a file
whose content is two lines `hello`, with the pattern `hello`, each line
matches a fresh case-insensitive test, yet the handler outputs only the
first line (exit code 0, since the first matching line is always found from
offset 0). -/
theorem grep_stateful_regex_drops_matching_lines :
    (seedFs.createFile "n0" "t1" "dup.txt" "/home/user" "hello\nhello").1.isSome
        = true ∧
    (seedFs.createFile "n0" "t1" "dup.txt" "/home/user"
        "hello\nhello").2.readFile "dup.txt" = some "hello\nhello" ∧
    jsRegExpLit? "hello" = some "hello".data ∧
    jsSplit '\n' "hello\nhello" = ["hello", "hello"] ∧
    (jsTestG "hello".data 0 "hello").1 = true ∧
    (cmdGrep ["hello", "dup.txt"]
      { fs := (seedFs.createFile "n0" "t1" "dup.txt" "/home/user"
          "hello\nhello").2,
        term := termInit, env := probeEnv }).output = "hello" ∧
    (cmdGrep ["hello", "dup.txt"]
      { fs := (seedFs.createFile "n0" "t1" "dup.txt" "/home/user"
          "hello\nhello").2,
        term := termInit, env := probeEnv }).exitCode = 0 ∧
    ("hello" : String) ≠ "hello\nhello" :=
  ⟨rfl, rfl, rfl, rfl, rfl, rfl, rfl, by decide⟩

/-- C9: `importFilesystem` stores whatever `JSON.parse` yields — it returns
`true` and wholesale replaces the filesystem state for every parsed JSON
value, with no shape or invariant validation; in particular the JSON values
`null` and `42` are accepted, and neither has even the aggregate shape the
data model requires (which the seeded export does have). -/
theorem importFilesystem_accepts_any_parsed_json :
    (∀ (v : Json) (st : Json), importFilesystem (some v) st = (true, v)) ∧
    importFilesystem (some Json.null) (exportFilesystem seedFs)
        = (true, Json.null) ∧
    importFilesystem (some (Json.num 42)) (exportFilesystem seedFs)
        = (true, Json.num 42) ∧
    jsonIsFilesystemShape Json.null = false ∧
    jsonIsFilesystemShape (Json.num 42) = false ∧
    jsonIsFilesystemShape (exportFilesystem seedFs) = true :=
  ⟨fun _ _ => rfl, rfl, rfl, rfl, rfl, rfl⟩

/-- C10: with a non-empty command history and no cursor set (`historyIndex`
is the sentinel -1), `navigateHistory('down')` returns the empty string and
overwrites the draft `currentInput` with the empty string (the index -1
reaches `commandHistory[-1] || ''`), leaving the history itself
untouched. -/
theorem navigateHistory_down_overwrites_draft (st : TermState)
    (h1 : st.commandHistory ≠ []) (h2 : st.historyIndex = -1) :
    (navigateHistory "down" st).1 = "" ∧
    (navigateHistory "down" st).2.currentInput = "" ∧
    (navigateHistory "down" st).2.historyIndex = -1 ∧
    (navigateHistory "down" st).2.commandHistory = st.commandHistory := by
  have hlen : ¬ (st.commandHistory.length = 0) := by
    simpa [List.length_eq_zero] using h1
  have hne : ¬ (st.historyIndex = (st.commandHistory.length : Int) - 1) := by
    rw [h2]
    intro hc
    have hz : (st.commandHistory.length : Int) = 0 := by omega
    exact hlen (by exact_mod_cast hz)
  simp [navigateHistory, hlen, h2, hne, jsIndex]

/-- Witness for C10 at a concrete session with a typed draft. -/
theorem navigateHistory_down_overwrites_draft_witness :
    (navigateHistory "down"
      { termInit with commandHistory := ["ls"], currentInput := "draft" }).1
        = "" ∧
    (navigateHistory "down"
      { termInit with commandHistory := ["ls"], currentInput := "draft" }).2.currentInput
        = "" ∧
    (navigateHistory "down"
      { termInit with commandHistory := ["ls"], currentInput := "draft" }).2.historyIndex
        = -1 ∧
    (navigateHistory "down"
      { termInit with commandHistory := ["ls"], currentInput := "draft" }).2.commandHistory
        = ["ls"] :=
  navigateHistory_down_overwrites_draft
    { termInit with commandHistory := ["ls"], currentInput := "draft" }
    (by decide) rfl

/-! ### C4: failure atomicity

Every operation validates before its single state commit, so a reported
failure leaves the tree untouched.  One lemma per operation; they are also
reused by the claim about the error-reporting of the shell handlers. -/

lemma deleteNode_fail_eq (fs : FileSystem) (p : String)
    (h : (fs.deleteNode p).1 = false) : (fs.deleteNode p).2 = fs := by
  cases hnode : fs.getNodeByPath p with
  | none => simp [FileSystem.deleteNode, hnode]
  | some node =>
    by_cases hro : node.readOnlyFlag = true
    · simp [FileSystem.deleteNode, hnode, hro]
    · cases hpar : node.parent with
      | none => simp [FileSystem.deleteNode, hnode, hro, hpar]
      | some pid =>
        cases hp2 : fs.getNodeById pid with
        | none => simp [FileSystem.deleteNode, hnode, hro, hpar, hp2]
        | some parent =>
          exfalso
          simp [FileSystem.deleteNode, hnode, hro, hpar, hp2] at h

lemma renameNode_fail_eq (fs : FileSystem) (p newName now : String)
    (h : (fs.renameNode p newName now).1 = false) :
    (fs.renameNode p newName now).2 = fs := by
  cases hnode : fs.getNodeByPath p with
  | none => simp [FileSystem.renameNode, hnode]
  | some node =>
    by_cases hro : node.readOnlyFlag = true
    · simp [FileSystem.renameNode, hnode, hro]
    · by_cases hcol : (fs.getNodeByPath (renameTargetPath p newName)).isSome = true
      · simp [FileSystem.renameNode, hnode, hro, hcol]
      · exfalso
        simp [FileSystem.renameNode, hnode, hro, hcol] at h

lemma moveNode_fail_eq (fs : FileSystem) (src dst now : String)
    (h : (fs.moveNode src dst now).1 = false) :
    (fs.moveNode src dst now).2 = fs := by
  cases hsrc : fs.getNodeByPath src with
  | none => simp [FileSystem.moveNode, hsrc]
  | some node =>
    cases hdst : fs.getNodeByPath dst with
    | none => simp [FileSystem.moveNode, hsrc, hdst]
    | some destParent =>
      by_cases hguard : destParent.type ≠ "directory" ∨ node.readOnlyFlag = true
      · simp [FileSystem.moveNode, hsrc, hdst, hguard]
      · cases hold : node.parent.bind fs.getNodeById with
        | none => simp [FileSystem.moveNode, hsrc, hdst, hguard, hold]
        | some oldParent =>
          by_cases hcol : (fs.getNodeByPath
              (if dst = "/" then "/" ++ node.name
               else dst ++ "/" ++ node.name)).isSome = true
          · simp [FileSystem.moveNode, hsrc, hdst, hguard, hold, hcol]
          · exfalso
            simp [FileSystem.moveNode, hsrc, hdst, hguard, hold, hcol] at h

lemma updateFileContent_fail_eq (fs : FileSystem) (p c now : String)
    (h : (fs.updateFileContent p c now).1 = false) :
    (fs.updateFileContent p c now).2 = fs := by
  cases hnode : fs.getNodeByPath p with
  | none => simp [FileSystem.updateFileContent, hnode]
  | some node =>
    by_cases hguard : node.type ≠ "file" ∨ node.readOnlyFlag = true
    · simp [FileSystem.updateFileContent, hnode, hguard]
    · exfalso
      simp [FileSystem.updateFileContent, hnode, hguard] at h

lemma setCurrentDirectory_fail_eq (fs : FileSystem) (p : String)
    (h : (fs.setCurrentDirectory p).1 = false) :
    (fs.setCurrentDirectory p).2 = fs := by
  cases hnode : fs.getNodeByPath (fs.resolvePath p) with
  | none => simp [FileSystem.setCurrentDirectory, hnode]
  | some node =>
    by_cases hdir : node.type ≠ "directory"
    · simp [FileSystem.setCurrentDirectory, hnode, hdir]
    · exfalso
      simp [FileSystem.setCurrentDirectory, hnode, hdir] at h

lemma createFile_fail_eq (fs : FileSystem) (newId now name pp c : String)
    (h : (fs.createFile newId now name pp c).1 = none) :
    (fs.createFile newId now name pp c).2 = fs := by
  cases hpar : fs.getNodeByPath pp with
  | none => simp [FileSystem.createFile, hpar]
  | some parent =>
    by_cases hdir : parent.type ≠ "directory"
    · simp [FileSystem.createFile, hpar, hdir]
    · by_cases hcol : (fs.getNodeByPath
        (if parent.path = "/" then "/" ++ name
         else parent.path ++ "/" ++ name)).isSome = true
      · simp [FileSystem.createFile, hpar, hdir, hcol]
      · exfalso
        simp [FileSystem.createFile, hpar, hdir, hcol] at h

lemma createDirectory_fail_eq (fs : FileSystem) (newId now name pp : String)
    (h : (fs.createDirectory newId now name pp).1 = none) :
    (fs.createDirectory newId now name pp).2 = fs := by
  cases hpar : fs.getNodeByPath pp with
  | none => simp [FileSystem.createDirectory, hpar]
  | some parent =>
    by_cases hdir : parent.type ≠ "directory"
    · simp [FileSystem.createDirectory, hpar, hdir]
    · by_cases hcol : (fs.getNodeByPath
        (if parent.path = "/" then "/" ++ name
         else parent.path ++ "/" ++ name)).isSome = true
      · simp [FileSystem.createDirectory, hpar, hdir, hcol]
      · exfalso
        simp [FileSystem.createDirectory, hpar, hdir, hcol] at h

/-- C4: mutations are atomic per call — every filesystem operation that
reports failure (`false` or `null`) returns the tree exactly as it was: all
validation precedes the single commit.  In particular a failed
`importFilesystem` (malformed blob, i.e. `JSON.parse` throwing) keeps the
previously stored value, and a failed `deleteNode` (absent node, readOnly
node, or the root) removes nothing. -/
theorem failed_operations_leave_tree_unchanged :
    (∀ (fs : FileSystem) (p : String), (fs.deleteNode p).1 = false →
      (fs.deleteNode p).2 = fs) ∧
    (∀ (fs : FileSystem) (p n now : String), (fs.renameNode p n now).1 = false →
      (fs.renameNode p n now).2 = fs) ∧
    (∀ (fs : FileSystem) (s d now : String), (fs.moveNode s d now).1 = false →
      (fs.moveNode s d now).2 = fs) ∧
    (∀ (fs : FileSystem) (p c now : String),
      (fs.updateFileContent p c now).1 = false →
      (fs.updateFileContent p c now).2 = fs) ∧
    (∀ (fs : FileSystem) (p : String), (fs.setCurrentDirectory p).1 = false →
      (fs.setCurrentDirectory p).2 = fs) ∧
    (∀ (fs : FileSystem) (i now n pp c : String),
      (fs.createFile i now n pp c).1 = none → (fs.createFile i now n pp c).2 = fs) ∧
    (∀ (fs : FileSystem) (i now n pp : String),
      (fs.createDirectory i now n pp).1 = none →
      (fs.createDirectory i now n pp).2 = fs) ∧
    (∀ st : Json, importFilesystem none st = (false, st)) :=
  ⟨deleteNode_fail_eq, renameNode_fail_eq, moveNode_fail_eq,
   updateFileContent_fail_eq, setCurrentDirectory_fail_eq,
   createFile_fail_eq, createDirectory_fail_eq, fun _ => rfl⟩

/-- Witness for C4 on the seeded tree: deleting the read-only `/system` and
the root both fail and change nothing, creating a file over the existing
`README.md` fails and changes nothing, and importing a malformed blob keeps
the stored export. -/
theorem failed_operations_leave_tree_unchanged_witness :
    (seedFs.deleteNode "/system").1 = false ∧
    (seedFs.deleteNode "/system").2 = seedFs ∧
    (seedFs.deleteNode "/").1 = false ∧
    (seedFs.deleteNode "/").2 = seedFs ∧
    (seedFs.createFile "n0" "t1" "README.md" "/home/user" "").1 = none ∧
    (seedFs.createFile "n0" "t1" "README.md" "/home/user" "").2 = seedFs ∧
    importFilesystem none (exportFilesystem seedFs)
      = (false, exportFilesystem seedFs) :=
  ⟨rfl,
   failed_operations_leave_tree_unchanged.1 seedFs "/system" rfl,
   rfl,
   failed_operations_leave_tree_unchanged.1 seedFs "/" rfl,
   rfl,
   failed_operations_leave_tree_unchanged.2.2.2.2.2.1 seedFs "n0" "t1"
     "README.md" "/home/user" "" rfl,
   failed_operations_leave_tree_unchanged.2.2.2.2.2.2.2
     (exportFilesystem seedFs)⟩

/-! ### C6: error reporting of the shell built-ins -/

/-- C6 counterexample: `rm -r /system` on the seeded tree targets an
existing read-only node, `deleteNode` fails, and yet `rm` returns exit code
0 with empty output (its loop ignores the return value of `deleteNode`) —
refuting the claim that rm reports every underlying `deleteNode` failure
with a nonzero exit code. -/
theorem rm_swallows_deleteNode_failure :
    (seedFs.getNodeByPath "/system").isSome = true ∧
    ((seedFs.getNodeByPath "/system").map FileNode.readOnlyFlag)
      = some true ∧
    (seedFs.deleteNode "/system").1 = false ∧
    (cmdRm ["-r", "/system"]
      { fs := seedFs, term := termInit, env := probeEnv }).exitCode = 0 ∧
    (cmdRm ["-r", "/system"]
      { fs := seedFs, term := termInit, env := probeEnv }).output = "" ∧
    (cmdRm ["-r", "/system"]
      { fs := seedFs, term := termInit, env := probeEnv }).fs = seedFs :=
  ⟨rfl, rfl, rfl, rfl, rfl, rfl⟩

/-- C6 as amended: every built-in reports the failures it detects itself
with the claimed codes — exit 1 with a message and an unchanged tree for a
missing or bad target (`rm`, `ls`, `cat`, `head`, `tail`, `wc`, `grep`,
`man`, a failing `cd`, a failing `touch` create, `mkdir` without `-p`) and
for `rm` without `-r` on a directory, exit 2 for a grep pattern that fails
to compile, and exit 127 for an unknown command — but `rm` ignores the
result of `deleteNode`: a failing delete of an existing target (with `-r`)
yields exit code 0, empty output and an unchanged tree. -/
theorem handlers_report_own_checks_but_rm_ignores_delete :
    (∀ (fs : FileSystem) (term : TermState) (env : SysEnv) (t : String),
      t ≠ "" → jsStartsWith t "-" = false → fs.getNodeByPath t = none →
      cmdRm [t] { fs := fs, term := term, env := env } =
        { output := "rm: cannot remove '" ++ t ++
            "': No such file or directory",
          exitCode := 1, fs := fs, deltas := [] }) ∧
    (∀ (fs : FileSystem) (term : TermState) (env : SysEnv) (t : String)
        (node : FileNode),
      t ≠ "" → jsStartsWith t "-" = false →
      fs.getNodeByPath t = some node → node.type = "directory" →
      cmdRm [t] { fs := fs, term := term, env := env } =
        { output := "rm: cannot remove '" ++ t ++ "': Is a directory",
          exitCode := 1, fs := fs, deltas := [] }) ∧
    (∀ (fs : FileSystem) (term : TermState) (env : SysEnv) (t : String)
        (node : FileNode),
      t ≠ "" → jsStartsWith t "-" = false →
      fs.getNodeByPath t = some node →
      (fs.deleteNode t).1 = false →
      (cmdRm ["-r", t] { fs := fs, term := term, env := env }).exitCode = 0 ∧
      (cmdRm ["-r", t] { fs := fs, term := term, env := env }).output = "" ∧
      (cmdRm ["-r", t] { fs := fs, term := term, env := env }).fs = fs) ∧
    (∀ (fs : FileSystem) (term : TermState) (env : SysEnv) (t : String),
      t ≠ "" → jsStartsWith t "-" = false →
      (fs.createDirectory (env.mkId 0) env.nowIso
        (((jsSplit '/' (fs.resolvePath t)).getLast?).getD "")
        (getParentPath (fs.resolvePath t))).1 = none →
      cmdMkdir [t] { fs := fs, term := term, env := env } =
        { output := "mkdir: cannot create directory '" ++ t ++ "'",
          exitCode := 1, fs := fs, deltas := [] }) ∧
    (∀ (fs : FileSystem) (term : TermState) (env : SysEnv) (t : String),
      t ≠ "" → (fs.setCurrentDirectory t).1 = false →
      cmdCd [t] { fs := fs, term := term, env := env } =
        { output := "cd: " ++ t ++ ": No such directory",
          exitCode := 1, fs := fs, deltas := [] }) ∧
    (∀ (fs : FileSystem) (term : TermState) (env : SysEnv) (t : String),
      t ≠ "" → jsStartsWith t "-" = false → fs.getNodeByPath t = none →
      cmdLs [t] { fs := fs, term := term, env := env } =
        { output := "ls: cannot access '" ++ t ++
            "': No such file or directory",
          exitCode := 1, fs := fs, deltas := [] }) ∧
    (∀ (fs : FileSystem) (term : TermState) (env : SysEnv) (f : String),
      f ≠ "" → fs.readFile f = none →
      cmdCat [f] { fs := fs, term := term, env := env } =
        { output := "cat: " ++ f ++ ": No such file",
          exitCode := 1, fs := fs, deltas := [] }) ∧
    (∀ (fs : FileSystem) (term : TermState) (env : SysEnv) (t : String),
      t ≠ "" → (fs.getNodeByPath (fs.resolvePath t)).isSome = false →
      (fs.createFile (env.mkId 0) env.nowIso
        (((jsSplit '/' (fs.resolvePath t)).getLast?).getD "")
        (getParentPath (fs.resolvePath t)) "").1 = none →
      cmdTouch [t] { fs := fs, term := term, env := env } =
        { output := "touch: cannot create '" ++ t ++ "'",
          exitCode := 1, fs := fs, deltas := [] }) ∧
    (∀ (fs : FileSystem) (term : TermState) (env : SysEnv) (f : String),
      f ≠ "" → jsStartsWith f "-" = false → fs.readFile f = none →
      cmdHead [f] { fs := fs, term := term, env := env } =
        { output := "head: " ++ f ++ ": No such file",
          exitCode := 1, fs := fs, deltas := [] }) ∧
    (∀ (fs : FileSystem) (term : TermState) (env : SysEnv) (f : String),
      f ≠ "" → jsStartsWith f "-" = false → fs.readFile f = none →
      cmdTail [f] { fs := fs, term := term, env := env } =
        { output := "tail: " ++ f ++ ": No such file",
          exitCode := 1, fs := fs, deltas := [] }) ∧
    (∀ (fs : FileSystem) (term : TermState) (env : SysEnv) (f : String),
      f ≠ "" → fs.readFile f = none →
      cmdWc [f] { fs := fs, term := term, env := env } =
        { output := "wc: " ++ f ++ ": No such file",
          exitCode := 1, fs := fs, deltas := [] }) ∧
    (∀ (fs : FileSystem) (term : TermState) (env : SysEnv) (p f : String),
      fs.readFile f = none →
      cmdGrep [p, f] { fs := fs, term := term, env := env } =
        { output := "grep: " ++ f ++ ": No such file",
          exitCode := 1, fs := fs, deltas := [] }) ∧
    (∀ (fs : FileSystem) (term : TermState) (env : SysEnv)
        (p f content : String),
      fs.readFile f = some content → jsRegExpLit? p = none →
      cmdGrep [p, f] { fs := fs, term := term, env := env } =
        { output := "grep: invalid pattern '" ++ p ++ "'",
          exitCode := 2, fs := fs, deltas := [] }) ∧
    (∀ (fs : FileSystem) (term : TermState) (env : SysEnv) (c : String),
      c ≠ "" → commandNames.contains c = false →
      cmdMan [c] { fs := fs, term := term, env := env } =
        { output := "No manual entry for " ++ c,
          exitCode := 1, fs := fs, deltas := [] }) ∧
    (∀ (env : SysEnv) (raw : String) (fs : FileSystem) (term : TermState),
      (dispatchInput term raw).1 ≠ "" →
      commandHandler (dispatchInput term raw).1 = none →
      (executeCommand env raw fs term).command.output
          = (dispatchInput term raw).1 ++ ": command not found" ∧
      (executeCommand env raw fs term).command.exitCode = 127 ∧
      (executeCommand env raw fs term).fs = fs) := by
  refine ⟨?_, ?_, ?_, ?_, ?_, ?_, ?_, ?_, ?_, ?_, ?_, ?_, ?_, ?_, ?_⟩
  · intro fs term env t ht hdash hnone
    simp [cmdRm, argTruthy, ht, hdash, rmLoop, hnone]
  · intro fs term env t node ht hdash hsome htype
    have hr1 : t ≠ "-r" := by
      intro hp; rw [hp] at hdash; exact absurd hdash (by decide)
    have hr2 : t ≠ "-rf" := by
      intro hp; rw [hp] at hdash; exact absurd hdash (by decide)
    simp [cmdRm, argTruthy, ht, hdash, hr1, hr2, List.filter, List.contains,
      rmLoop, hsome, htype]
    exact ⟨fun h => hr1 h.symm, fun h => hr2 h.symm⟩
  · intro fs term env t node ht hdash hsome hfail
    have hfs := deleteNode_fail_eq fs t hfail
    have hflag : jsStartsWith "-r" "-" = true := rfl
    have hrm : cmdRm ["-r", t] { fs := fs, term := term, env := env } =
        rmLoop true [t] fs [] := by
      simp [cmdRm, argTruthy, List.filter, hflag, hdash]
    rw [hrm]
    simp [rmLoop, hsome, hfs]
  · intro fs term env t ht hdash hfail
    have hfs := createDirectory_fail_eq fs (env.mkId 0) env.nowIso
      (((jsSplit '/' (fs.resolvePath t)).getLast?).getD "")
      (getParentPath (fs.resolvePath t)) hfail
    have hnp : t ≠ "-p" := by
      intro hp
      rw [hp] at hdash
      exact absurd hdash (by decide)
    simp [cmdMkdir, argTruthy, ht, hdash, hnp, List.filter, mkdirLoop,
      hfail, hfs]
    exact fun hp => hnp hp.symm
  · intro fs term env t ht hfail
    have hfs := setCurrentDirectory_fail_eq fs t hfail
    simp [cmdCd, jsOrStr, ht, hfail, hfs]
  · intro fs term env t ht hdash hnone
    simp [cmdLs, argTruthy, ht, hdash, List.filter, hnone]
  · intro fs term env f hf hnone
    simp [cmdCat, argTruthy, hf, hnone]
  · intro fs term env t ht hnot hfail
    have hfs := createFile_fail_eq fs (env.mkId 0) env.nowIso
      (((jsSplit '/' (fs.resolvePath t)).getLast?).getD "")
      (getParentPath (fs.resolvePath t)) "" hfail
    simp [cmdTouch, argTruthy, ht, hnot, hfail, hfs]
  · intro fs term env f hf hdash hread
    simp [cmdHead, argTruthy, hf, hdash, List.find?, hread]
  · intro fs term env f hf hdash hread
    simp [cmdTail, argTruthy, hf, hdash, List.find?, hread]
  · intro fs term env f hf hread
    simp [cmdWc, argTruthy, hf, hread]
  · intro fs term env p f hread
    simp [cmdGrep, hread]
  · intro fs term env p f content hread hbad
    simp [cmdGrep, hread, hbad]
  · intro fs term env c hc hcont
    simp [cmdMan, argTruthy, hc, hcont]
    intro hm
    have helem := List.elem_eq_true_of_mem hm
    rw [show commandNames.elem c = commandNames.contains c from rfl,
      hcont] at helem
    simp at helem
  · intro env raw fs term hcmd hnone
    simp [executeCommand, hcmd, hnone]

/-- Witness for C6 amended on the seeded tree: a missing rm target, rm
without `-r` on a directory, the swallowed read-only delete, a colliding
mkdir, a failing cd, an invalid grep pattern, an unknown man page and an
unknown command. -/
theorem handlers_report_own_checks_witness :
    cmdRm ["/nope"] { fs := seedFs, term := termInit, env := probeEnv } =
      { output := "rm: cannot remove '/nope': No such file or directory",
        exitCode := 1, fs := seedFs, deltas := [] } ∧
    cmdRm ["/data"] { fs := seedFs, term := termInit, env := probeEnv } =
      { output := "rm: cannot remove '/data': Is a directory",
        exitCode := 1, fs := seedFs, deltas := [] } ∧
    (cmdRm ["-r", "/system"]
      { fs := seedFs, term := termInit, env := probeEnv }).exitCode = 0 ∧
    cmdMkdir ["README.md"]
      { fs := seedFs, term := termInit, env := probeEnv } =
      { output := "mkdir: cannot create directory 'README.md'",
        exitCode := 1, fs := seedFs, deltas := [] } ∧
    cmdCd ["/nope"] { fs := seedFs, term := termInit, env := probeEnv } =
      { output := "cd: /nope: No such directory",
        exitCode := 1, fs := seedFs, deltas := [] } ∧
    cmdGrep ["(", "README.md"]
      { fs := seedFs, term := termInit, env := probeEnv } =
      { output := "grep: invalid pattern '('",
        exitCode := 2, fs := seedFs, deltas := [] } ∧
    cmdMan ["frobnicate"]
      { fs := seedFs, term := termInit, env := probeEnv } =
      { output := "No manual entry for frobnicate",
        exitCode := 1, fs := seedFs, deltas := [] } ∧
    (executeCommand probeEnv "frobnicate x" seedFs termInit).command.exitCode
      = 127 := by
  obtain ⟨ha, hb, hc, hd, he, _hf, _hg, _hh, _hi, _hj, _hk, _hl, hm, hn, ho⟩ :=
    handlers_report_own_checks_but_rm_ignores_delete
  exact ⟨ha seedFs termInit probeEnv "/nope" (by decide) rfl rfl,
    hb seedFs termInit probeEnv "/data" seedData (by decide) rfl rfl rfl,
    (hc seedFs termInit probeEnv "/system" seedSystem (by decide) rfl rfl
      rfl).1,
    hd seedFs termInit probeEnv "README.md" (by decide) rfl rfl,
    he seedFs termInit probeEnv "/nope" (by decide) rfl,
    hm seedFs termInit probeEnv "(" "README.md" seedReadmeContent rfl rfl,
    hn seedFs termInit probeEnv "frobnicate" (by decide) rfl,
    (ho probeEnv "frobnicate x" seedFs termInit (by decide) rfl).2.1⟩

/-! ### C2: properties of path normalization -/

lemma splitChars_ne_nil (sep : Char) (cs : List Char) :
    splitChars sep cs ≠ [] := by
  induction cs with
  | nil => simp [splitChars]
  | cons c rest ih =>
    simp only [splitChars]
    split
    · simp
    · split <;> simp

lemma mem_splitChars (sep : Char) :
    ∀ (cs : List Char) (w : List Char), w ∈ splitChars sep cs → sep ∉ w := by
  intro cs
  induction cs with
  | nil =>
    intro w hw
    simp [splitChars] at hw
    subst hw; simp
  | cons c rest ih =>
    intro w hw
    simp only [splitChars] at hw
    split at hw
    · rename_i heq
      exact absurd heq (splitChars_ne_nil sep rest)
    · rename_i v vs heq
      split at hw
      · rcases List.mem_cons.mp hw with rfl | hw2
        · simp
        · exact ih w (by rw [heq]; exact hw2)
      · rename_i hc
        rcases List.mem_cons.mp hw with rfl | hw2
        · intro hmem
          rcases List.mem_cons.mp hmem with rfl | hmem2
          · exact hc rfl
          · exact ih v (by rw [heq]; exact List.mem_cons_self v vs) hmem2
        · exact ih w (by rw [heq]; exact List.mem_cons_of_mem v hw2)

lemma splitChars_cons_sep (sep : Char) (cs : List Char) :
    splitChars sep (sep :: cs) = [] :: splitChars sep cs := by
  simp only [splitChars]
  cases hs : splitChars sep cs with
  | nil => exact absurd hs (splitChars_ne_nil sep cs)
  | cons w ws => simp

lemma splitChars_of_not_mem (sep : Char) :
    ∀ cs : List Char, sep ∉ cs → splitChars sep cs = [cs] := by
  intro cs
  induction cs with
  | nil => simp [splitChars]
  | cons c rest ih =>
    intro h
    have hc : ¬ c = sep := by
      rintro rfl; exact h (List.mem_cons_self _ _)
    have hr : sep ∉ rest := fun hm => h (List.mem_cons_of_mem _ hm)
    simp only [splitChars, ih hr]
    simp [hc]

lemma splitChars_append (sep : Char) :
    ∀ xs ys : List Char, sep ∉ xs →
      splitChars sep (xs ++ sep :: ys) = xs :: splitChars sep ys := by
  intro xs
  induction xs with
  | nil => intro ys _; simpa using splitChars_cons_sep sep ys
  | cons c rest ih =>
    intro ys h
    have hc : ¬ c = sep := by
      rintro rfl; exact h (List.mem_cons_self _ _)
    have hr : sep ∉ rest := fun hm => h (List.mem_cons_of_mem _ hm)
    have hrec := ih ys hr
    simp only [List.cons_append, splitChars, List.append_eq]
    rw [hrec]
    simp [hc]

lemma data_ne_nil_of_ne_empty {s : String} (h : s ≠ "") : s.data ≠ [] :=
  fun hd => h (String.ext hd)

lemma jsJoin_data_ne_nil :
    ∀ l : List String, l ≠ [] → (∀ e ∈ l, e ≠ "") →
      (jsJoin "/" l).data ≠ [] := by
  intro l
  induction l with
  | nil => intro h; exact absurd rfl h
  | cons x tail _ =>
    intro _ he
    cases tail with
    | nil => exact data_ne_nil_of_ne_empty (he x (by simp))
    | cons y rest =>
      show ((x ++ "/") ++ jsJoin "/" (y :: rest)).data ≠ []
      rw [String.data_append, String.data_append]
      simp

lemma splitChars_jsJoin :
    ∀ l : List String, (∀ e ∈ l, e ≠ "" ∧ '/' ∉ e.data) → l ≠ [] →
      splitChars '/' (jsJoin "/" l).data = l.map String.data := by
  intro l
  induction l with
  | nil => intro _ h; exact absurd rfl h
  | cons x tail ih =>
    intro he _
    cases tail with
    | nil =>
      show splitChars '/' x.data = [x.data]
      exact splitChars_of_not_mem '/' x.data (he x (by simp)).2
    | cons y rest =>
      have hx := he x (by simp)
      have ihr := ih (fun e hm => he e (List.mem_cons_of_mem _ hm)) (by simp)
      show splitChars '/' ((x ++ "/") ++ jsJoin "/" (y :: rest)).data = _
      rw [String.data_append, String.data_append]
      have hmid : x.data ++ ("/" : String).data ++ (jsJoin "/" (y :: rest)).data
          = x.data ++ '/' :: (jsJoin "/" (y :: rest)).data := by
        simp
      rw [hmid, splitChars_append '/' x.data _ hx.2, ihr]
      rfl

lemma pathParts_slash_join (l : List String)
    (h : ∀ e ∈ l, e ≠ "" ∧ '/' ∉ e.data) :
    pathParts ("/" ++ jsJoin "/" l) = l := by
  cases l with
  | nil => rfl
  | cons x tail =>
    have hdata : ("/" ++ jsJoin "/" (x :: tail)).data
        = '/' :: (jsJoin "/" (x :: tail)).data := by
      rw [String.data_append]; rfl
    have hsplit := splitChars_jsJoin (x :: tail) h (by simp)
    unfold pathParts jsSplit
    rw [hdata, splitChars_cons_sep, hsplit]
    have hmkmap : ((x :: tail).map String.data).map (fun cs => String.mk cs)
        = x :: tail := by
      rw [List.map_map]
      have hcomp : ((fun cs => String.mk cs) ∘ String.data)
          = (id : String → String) := funext (fun _ => rfl)
      rw [hcomp, List.map_id]
    rw [List.map_cons, hmkmap]
    show List.filter _ ("" :: x :: tail) = x :: tail
    rw [List.filter_cons, if_neg (by simp)]
    exact List.filter_eq_self.mpr (fun a ha => decide_eq_true (h a ha).1)

lemma foldl_normStep_mem :
    ∀ (parts acc : List String) (x : String),
      x ∈ parts.foldl normStep acc → x ∈ acc ∨ x ∈ parts := by
  intro parts
  induction parts with
  | nil => intro acc x h; exact Or.inl h
  | cons p ps ih =>
    intro acc x h
    rcases ih (normStep acc p) x h with hx | hx
    · unfold normStep at hx
      split at hx
      · exact Or.inl (List.dropLast_subset _ hx)
      · split at hx
        · exact Or.inl hx
        · rcases List.mem_append.mp hx with h1 | h1
          · exact Or.inl h1
          · simp at h1
            subst h1
            exact Or.inr (List.mem_cons_self _ _)
    · exact Or.inr (List.mem_cons_of_mem _ hx)

lemma mem_normSegs {parts : List String} {x : String}
    (h : x ∈ normSegs parts) : x ∈ parts := by
  rcases foldl_normStep_mem parts [] x h with h1 | h1
  · simp at h1
  · exact h1

lemma foldl_normStep_nodots :
    ∀ (parts acc : List String),
      (∀ x ∈ acc, x ≠ "." ∧ x ≠ "..") →
      ∀ x ∈ parts.foldl normStep acc, x ≠ "." ∧ x ≠ ".." := by
  intro parts
  induction parts with
  | nil => intro acc hacc x hx; exact hacc x hx
  | cons p ps ih =>
    intro acc hacc x hx
    refine ih (normStep acc p) ?_ x hx
    intro y hy
    unfold normStep at hy
    split at hy
    · exact hacc y (List.dropLast_subset _ hy)
    · split at hy
      · exact hacc y hy
      · rcases List.mem_append.mp hy with h1 | h1
        · exact hacc y h1
        · simp at h1
          subst h1
          rename_i hdd hd
          exact ⟨hd, hdd⟩

lemma normSegs_nodots {parts : List String} :
    ∀ x ∈ normSegs parts, x ≠ "." ∧ x ≠ ".." :=
  foldl_normStep_nodots parts [] (by simp)

lemma foldl_normStep_id :
    ∀ (l acc : List String), (∀ x ∈ l, x ≠ "." ∧ x ≠ "..") →
      l.foldl normStep acc = acc ++ l := by
  intro l
  induction l with
  | nil => intro acc _; simp
  | cons p ps ih =>
    intro acc h
    have hp := h p (List.mem_cons_self _ _)
    have hstep : normStep acc p = acc ++ [p] := by
      unfold normStep
      rw [if_neg hp.2, if_neg hp.1]
    show (ps.foldl normStep (normStep acc p)) = _
    rw [hstep, ih (acc ++ [p]) (fun x hx => h x (List.mem_cons_of_mem _ hx))]
    simp

lemma normSegs_fixed {l : List String}
    (h : ∀ x ∈ l, x ≠ "." ∧ x ≠ "..") : normSegs l = l := by
  simpa using foldl_normStep_id l [] h

lemma pathParts_mem_props (s : String) :
    ∀ x ∈ pathParts s, x ≠ "" ∧ '/' ∉ x.data := by
  intro x hx
  unfold pathParts jsSplit at hx
  rcases List.mem_filter.mp hx with ⟨hmem, hne⟩
  rcases List.mem_map.mp hmem with ⟨w, hw, rfl⟩
  refine ⟨by simpa using hne, ?_⟩
  simpa using mem_splitChars '/' s.data w hw

lemma canonical_eq {s : String} (h : isCanonicalAbs s = true) :
    s = "/" ++ jsJoin "/" (pathParts s) := by
  have h1 := ((Bool.and_eq_true _ _).mp h).1
  exact eq_of_beq h1

lemma canonical_nodots {s : String} (h : isCanonicalAbs s = true) :
    ∀ x ∈ pathParts s, x ≠ "." ∧ x ≠ ".." := by
  have h2 := ((Bool.and_eq_true _ _).mp h).2
  intro x hx
  have := List.all_eq_true.mp h2 x hx
  rcases (Bool.and_eq_true _ _).mp this with ⟨ha, hb⟩
  exact ⟨bne_iff_ne.mp ha, bne_iff_ne.mp hb⟩

lemma normalizeAbs_canonical (s : String) :
    isCanonicalAbs (normalizeAbs s) = true := by
  have hprops : ∀ x ∈ normSegs (pathParts s), x ≠ "" ∧ '/' ∉ x.data :=
    fun x hx => pathParts_mem_props s x (mem_normSegs hx)
  have hparts : pathParts (normalizeAbs s) = normSegs (pathParts s) :=
    pathParts_slash_join _ hprops
  unfold isCanonicalAbs
  rw [Bool.and_eq_true]
  constructor
  · rw [hparts]
    exact beq_self_eq_true _
  · rw [hparts]
    refine List.all_eq_true.mpr (fun x hx => ?_)
    have := normSegs_nodots x hx
    rw [Bool.and_eq_true]
    exact ⟨bne_iff_ne.mpr this.1, bne_iff_ne.mpr this.2⟩

lemma canonical_normalizeAbs_fix {s : String}
    (h : isCanonicalAbs s = true) : normalizeAbs s = s := by
  have he := canonical_eq h
  have hd := canonical_nodots h
  unfold normalizeAbs
  rw [normSegs_fixed hd, ← he]

lemma canonical_data {s : String} (h : isCanonicalAbs s = true) :
    s.data = '/' :: (jsJoin "/" (pathParts s)).data := by
  conv_lhs => rw [canonical_eq h]
  rw [String.data_append]
  rfl

lemma canonical_startsWith {s : String} (h : isCanonicalAbs s = true) :
    jsStartsWith s "/" = true := by
  have hd := canonical_data h
  simp [jsStartsWith, hd, List.isPrefixOf]

lemma canonical_resolve {s : String} (h : isCanonicalAbs s = true)
    (cwd : String) : resolvePathFrom cwd s = s := by
  have hd := canonical_data h
  have h1 : ¬ (s = "" ∨ s = ".") := by
    rintro (rfl | rfl)
    · exact absurd hd (by simp)
    · injection hd with hh _
      exact absurd hh (by decide)
  have h2 : s ≠ "~" := by
    rintro rfl
    injection hd with hh _
    exact absurd hh (by decide)
  have h3 : ¬ (jsStartsWith s "~/" = true) := by
    simp [jsStartsWith, hd, List.isPrefixOf]
  have h4 : jsStartsWith s "/" = true := canonical_startsWith h
  unfold resolvePathFrom
  rw [if_neg h1, if_neg h2, if_neg h3, if_pos h4]
  exact canonical_normalizeAbs_fix h

lemma singleton_isPrefixOf_iff (c : Char) (xs : List Char) :
    ([c].isPrefixOf xs = true) ↔ xs.head? = some c := by
  cases xs with
  | nil => simp [List.isPrefixOf]
  | cons a t =>
    simp [List.isPrefixOf]
    exact eq_comm

lemma jsEndsWith_slash_iff (s : String) :
    jsEndsWith s "/" = true ↔ s.data.getLast? = some '/' := by
  unfold jsEndsWith
  rw [show ("/" : String).data.reverse = ['/'] from rfl]
  rw [singleton_isPrefixOf_iff, List.head?_reverse]

lemma jsJoin_getLast_ne_slash :
    ∀ l : List String, l ≠ [] → (∀ e ∈ l, e ≠ "" ∧ '/' ∉ e.data) →
      (jsJoin "/" l).data.getLast? ≠ some '/' := by
  intro l
  induction l with
  | nil => intro h; exact absurd rfl h
  | cons x tail ih =>
    intro _ he hlast
    cases tail with
    | nil =>
      have hx2 : x.data.getLast? = some '/' := hlast
      exact (he x (by simp)).2 (List.mem_of_mem_getLast? (by simp [hx2]))
    | cons y rest =>
      have hjn : (jsJoin "/" (y :: rest)).data ≠ [] :=
        jsJoin_data_ne_nil _ (by simp)
          (fun e hm => (he e (List.mem_cons_of_mem _ hm)).1)
      have hsplit : (jsJoin "/" (x :: y :: rest)).data
          = (x ++ "/").data ++ (jsJoin "/" (y :: rest)).data := by
        show ((x ++ "/") ++ jsJoin "/" (y :: rest)).data = _
        rw [String.data_append]
      rw [hsplit, List.getLast?_append_of_ne_nil _ hjn] at hlast
      exact ih (by simp) (fun e hm => he e (List.mem_cons_of_mem _ hm)) hlast

lemma canonical_trailing {s : String} (h : isCanonicalAbs s = true)
    (he : jsEndsWith s "/" = true) : s = "/" := by
  have heq := canonical_eq h
  cases hl : pathParts s with
  | nil => rw [heq, hl]; rfl
  | cons x tail =>
    exfalso
    have hlast := (jsEndsWith_slash_iff s).mp he
    rw [canonical_data h] at hlast
    have hne : (jsJoin "/" (pathParts s)).data ≠ [] := by
      rw [hl]
      exact jsJoin_data_ne_nil _ (by simp)
        (fun e hm => (pathParts_mem_props s e (hl ▸ hm)).1)
    have hcons : (('/' : Char) :: (jsJoin "/" (pathParts s)).data).getLast?
        = (jsJoin "/" (pathParts s)).data.getLast? := by
      simpa using List.getLast?_append_of_ne_nil ['/'] hne
    rw [hcons] at hlast
    exact jsJoin_getLast_ne_slash (pathParts s)
      (by rw [hl]; simp) (pathParts_mem_props s) hlast

/-- C2 counterexample: the `~/rest` branch of `resolvePath` concatenates
without normalizing, so `resolvePath("~/..")` from `/home/user` keeps a
`..` segment and is not idempotent, and `resolvePath("~/x/")` keeps its
trailing slash — refuting the claim as stated over all inputs. -/
theorem resolvePath_tilde_counterexample :
    resolvePathFrom "/home/user" "~/.." = "/home/user/.." ∧
    ".." ∈ pathParts (resolvePathFrom "/home/user" "~/..") ∧
    resolvePathFrom "/home/user" (resolvePathFrom "/home/user" "~/..")
      = "/home" ∧
    resolvePathFrom "/home/user" (resolvePathFrom "/home/user" "~/..")
      ≠ resolvePathFrom "/home/user" "~/.." ∧
    jsEndsWith (resolvePathFrom "/home/user" "~/x/") "/" = true ∧
    resolvePathFrom "/home/user" "~/x/" ≠ "/" :=
  ⟨rfl, by decide, rfl, by decide, rfl, by decide⟩

/-- C2 as amended: for a canonical current-directory path and any input not
of the form `~/rest`, the resolved path is canonical — it starts with `/`,
has no `.` or `..` segments (excess `..` above root are dropped by the
no-throw pop), has no trailing slash unless it is `/` itself, and resolving
is idempotent.  The `~/rest` inputs are returned as `/home/user` plus the
rest verbatim, without normalization (see the counterexample). -/
theorem resolvePath_normalizes_amended (cwd p : String)
    (hcwd : isCanonicalAbs cwd = true)
    (hp : jsStartsWith p "~/" = false) :
    isCanonicalAbs (resolvePathFrom cwd p) = true ∧
    jsStartsWith (resolvePathFrom cwd p) "/" = true ∧
    (∀ seg ∈ pathParts (resolvePathFrom cwd p), seg ≠ "." ∧ seg ≠ "..") ∧
    (jsEndsWith (resolvePathFrom cwd p) "/" = true →
      resolvePathFrom cwd p = "/") ∧
    resolvePathFrom cwd (resolvePathFrom cwd p) = resolvePathFrom cwd p := by
  have hres : isCanonicalAbs (resolvePathFrom cwd p) = true := by
    unfold resolvePathFrom
    split
    · exact hcwd
    · split
      · rfl
      · split
        · rename_i htl
          rw [hp] at htl
          exact absurd htl (by simp)
        · split
          · exact normalizeAbs_canonical p
          · exact normalizeAbs_canonical (cwd ++ "/" ++ p)
  exact ⟨hres, canonical_startsWith hres, canonical_nodots hres,
    canonical_trailing hres, canonical_resolve hres cwd⟩

/-- Witness for C2 amended: a relative input with `.` and `..` segments
resolved from the canonical `/home/user`. -/
theorem resolvePath_normalizes_amended_witness :
    isCanonicalAbs (resolvePathFrom "/home/user" "a/./b/../c") = true ∧
    jsStartsWith (resolvePathFrom "/home/user" "a/./b/../c") "/" = true ∧
    (∀ seg ∈ pathParts (resolvePathFrom "/home/user" "a/./b/../c"),
      seg ≠ "." ∧ seg ≠ "..") ∧
    (jsEndsWith (resolvePathFrom "/home/user" "a/./b/../c") "/" = true →
      resolvePathFrom "/home/user" "a/./b/../c" = "/") ∧
    resolvePathFrom "/home/user"
        (resolvePathFrom "/home/user" "a/./b/../c")
      = resolvePathFrom "/home/user" "a/./b/../c" :=
  resolvePath_normalizes_amended "/home/user" "a/./b/../c"
    (by decide) (by decide)

/-! ### C8: export / import round-trip -/

lemma alistGet_map_val {α β : Type} (m : List (String × α)) (f : α → β)
    (k : String) :
    alistGet (m.map (fun p => (p.1, f p.2))) k = (alistGet m k).map f := by
  induction m with
  | nil => rfl
  | cons p rest ih =>
    by_cases h : p.1 = k <;> simp [alistGet, h, ih]

lemma toJson_getField_content (n : FileNode) :
    n.toJson.getField "content" = n.content.map Json.str := by
  cases hc : n.content <;> cases hch : n.children <;>
    cases hro : n.isReadOnly <;>
    simp [FileNode.toJson, Json.getField, alistGet, hc, hch, hro]

/-- C8: exporting and immediately importing succeeds and stores the very
JSON value of the tree; in that stored value the root id and the
current-directory id are those of the pre-export tree, and every node keeps
its `id`, `path`, `parent` and `content` fields (timestamps re-import as
strings; the claimed field set is preserved exactly). -/
theorem export_import_roundtrip (fs : FileSystem) (st : Json) :
    importFilesystem (some (exportFilesystem fs)) st
      = (true, exportFilesystem fs) ∧
    (exportFilesystem fs).getField "root" = some (Json.str fs.root) ∧
    (exportFilesystem fs).getField "currentDirectory"
      = some (Json.str fs.currentDirectory) ∧
    ∀ (id : String) (n : FileNode), alistGet fs.nodes id = some n →
      ((exportFilesystem fs).getField "nodes").bind
          (fun j => j.getField id) = some n.toJson ∧
      n.toJson.getField "id" = some (Json.str n.id) ∧
      n.toJson.getField "path" = some (Json.str n.path) ∧
      n.toJson.getField "parent" = some
        (match n.parent with
         | some p => Json.str p
         | none => Json.null) ∧
      n.toJson.getField "content" = n.content.map Json.str := by
  refine ⟨rfl, rfl, rfl, ?_⟩
  intro id n h
  refine ⟨?_, rfl, rfl, ?_, toJson_getField_content n⟩
  · show (Json.getField (Json.obj (fs.nodes.map
        (fun p => (p.1, p.2.toJson)))) id) = some n.toJson
    simp [Json.getField, alistGet_map_val, h]
  · cases hp : n.parent <;>
      simp [FileNode.toJson, Json.getField, alistGet, hp]

/-- Witness for C8: the seeded tree round-trips; its `system.log` node is
recovered under its id with its path intact. -/
theorem export_import_roundtrip_witness :
    importFilesystem (some (exportFilesystem seedFs)) Json.null
      = (true, exportFilesystem seedFs) ∧
    ((exportFilesystem seedFs).getField "nodes").bind
        (fun j => j.getField "id18") = some seedSyslog.toJson ∧
    seedSyslog.toJson.getField "path"
      = some (Json.str "/data/logs/system.log") ∧
    seedSyslog.toJson.getField "content"
      = some (Json.str seedSyslogContent) :=
  ⟨(export_import_roundtrip seedFs Json.null).1,
   ((export_import_roundtrip seedFs Json.null).2.2.2 "id18" seedSyslog rfl).1,
   rfl, rfl⟩

/-! ### C7: renameNode rewrites the subtree by prefix substitution -/

lemma sameStructure_refl (fs : FileSystem) : sameStructure fs fs :=
  fun _ => rfl

lemma sameStructure_trans {fs g h : FileSystem}
    (h1 : sameStructure fs g) (h2 : sameStructure g h) :
    sameStructure fs h :=
  fun id => (h1 id).trans (h2 id)

lemma alistGet_mapReplace_ne {α : Type} (m : List (String × α))
    (k k' : String) (v : α) (h : k' ≠ k) :
    alistGet (m.map (fun p => if p.1 = k then (k, v) else p)) k'
      = alistGet m k' := by
  induction m with
  | nil => rfl
  | cons p rest ih =>
    simp only [List.map_cons]
    by_cases hp : p.1 = k
    · rw [if_pos hp]
      unfold alistGet
      rw [if_neg (fun he => h he.symm), hp, if_neg (fun he => h he.symm)]
      exact ih
    · rw [if_neg hp]
      unfold alistGet
      by_cases hpk : p.1 = k' <;> simp [hpk, ih]

lemma alistGet_mapReplace_eq {α : Type} (m : List (String × α))
    (k : String) (v : α) (h : m.any (fun p => p.1 = k) = true) :
    alistGet (m.map (fun p => if p.1 = k then (k, v) else p)) k = some v := by
  induction m with
  | nil => simp at h
  | cons p rest ih =>
    simp only [List.map_cons]
    by_cases hp : p.1 = k
    · rw [if_pos hp]
      unfold alistGet
      rw [if_pos rfl]
    · rw [if_neg hp]
      have h' : rest.any (fun p => p.1 = k) = true := by
        simpa [List.any_cons, hp] using h
      unfold alistGet
      rw [if_neg hp]
      exact ih h'

lemma alistGet_append_self {α : Type} (m : List (String × α)) (k : String)
    (v : α) (h : m.any (fun p => p.1 = k) = false) :
    alistGet (m ++ [(k, v)]) k = some v := by
  induction m with
  | nil => simp [alistGet]
  | cons p rest ih =>
    rw [List.any_cons] at h
    obtain ⟨h1, h2⟩ := Bool.or_eq_false_iff.mp h
    have hp : ¬ (p.1 = k) := by simpa using h1
    show alistGet (p :: (rest ++ [(k, v)])) k = some v
    unfold alistGet
    rw [if_neg hp]
    exact ih h2

lemma alistGet_append_ne {α : Type} (m : List (String × α)) (k k' : String)
    (v : α) (h : k' ≠ k) :
    alistGet (m ++ [(k, v)]) k' = alistGet m k' := by
  induction m with
  | nil =>
    show alistGet [(k, v)] k' = alistGet ([] : List (String × α)) k'
    unfold alistGet
    rw [if_neg (fun he => h he.symm)]
    rfl
  | cons p rest ih =>
    show alistGet (p :: (rest ++ [(k, v)])) k' = alistGet (p :: rest) k'
    unfold alistGet
    by_cases hp : p.1 = k' <;> simp [hp, ih]

lemma alistGet_alistSet {α : Type} (m : List (String × α)) (k : String)
    (v : α) (k' : String) :
    alistGet (alistSet m k v) k' = if k' = k then some v else alistGet m k' := by
  unfold alistSet
  by_cases hany : m.any (fun p => p.1 = k) = true
  · rw [if_pos hany]
    by_cases hk : k' = k
    · subst hk
      rw [if_pos rfl]
      exact alistGet_mapReplace_eq m k' v hany
    · rw [if_neg hk]
      exact alistGet_mapReplace_ne m k k' v hk
  · have hfalse : m.any (fun p => p.1 = k) = false :=
      Bool.eq_false_iff.mpr hany
    rw [if_neg hany]
    by_cases hk : k' = k
    · subst hk
      rw [if_pos rfl]
      exact alistGet_append_self m k' v hfalse
    · rw [if_neg hk]
      exact alistGet_append_ne m k k' v hk

lemma renameVisits_congr {fs g : FileSystem} (h : sameStructure fs g) :
    ∀ (fuel : Nat) (nodeId : String),
      renameVisits fs fuel nodeId = renameVisits g fuel nodeId := by
  intro fuel
  induction fuel with
  | zero => intro _; rfl
  | succ fuel ih =>
    intro nodeId
    have hfun : renameVisits fs fuel = renameVisits g fuel := funext ih
    have hid := h nodeId
    simp only [renameVisits, FileSystem.getNodeById]
    cases hf : alistGet fs.nodes nodeId with
    | none =>
      cases hg : alistGet g.nodes nodeId with
      | none => simp [hf, hg]
      | some m => rw [hf, hg] at hid; simp at hid
    | some n =>
      cases hg : alistGet g.nodes nodeId with
      | none => rw [hf, hg] at hid; simp at hid
      | some m =>
        rw [hf, hg] at hid
        simp at hid
        obtain ⟨htype, hchildren⟩ := hid
        simp only [hf, hg, htype, hchildren, hfun]

lemma renameUpdate_sameStructure (t nn ob nb now : String) :
    ∀ (fuel : Nat) (nodeId : String) (fs : FileSystem),
      sameStructure fs (renameUpdate t nn ob nb now fuel nodeId fs) := by
  intro fuel
  induction fuel with
  | zero => intro _ fs; exact sameStructure_refl fs
  | succ fuel ih =>
    intro nodeId fs
    simp only [renameUpdate]
    split
    · exact sameStructure_refl fs
    · rename_i n heq
      have h1 : sameStructure fs
          { fs with nodes :=
              alistSet fs.nodes nodeId (renameFn t nn ob nb now nodeId n) } := by
        intro id
        simp only [alistGet_alistSet]
        by_cases hid : id = nodeId
        · subst hid
          rw [if_pos rfl]
          rw [show fs.getNodeById id = alistGet fs.nodes id from rfl] at heq
          rw [heq]
          rfl
        · rw [if_neg hid]
      have haux : ∀ (cs : List String) (g : FileSystem), sameStructure fs g →
          sameStructure fs
            (cs.foldl (fun acc c => renameUpdate t nn ob nb now fuel c acc) g) := by
        intro cs
        induction cs with
        | nil => intro g hg; exact hg
        | cons c cs' ihc =>
          intro g hg
          exact ihc _ (sameStructure_trans hg (ih c g))
      split
      · split
        · exact haux _ _ h1
        · exact h1
      · exact h1

lemma renameUpdate_foldl_aux (t nn ob nb now : String) (fuel : Nat)
    (ihfuel : ∀ (nodeId : String) (g : FileSystem),
      (renameVisits g fuel nodeId).Nodup →
      ∀ id, alistGet (renameUpdate t nn ob nb now fuel nodeId g).nodes id =
        if id ∈ renameVisits g fuel nodeId
        then (alistGet g.nodes id).map (renameFn t nn ob nb now id)
        else alistGet g.nodes id)
    (fs : FileSystem) :
    ∀ (cs done : List String) (g : FileSystem),
      sameStructure fs g →
      (∀ id, alistGet g.nodes id =
        if id ∈ done
        then (alistGet fs.nodes id).map (renameFn t nn ob nb now id)
        else alistGet fs.nodes id) →
      (done ++ cs.flatMap (renameVisits fs fuel)).Nodup →
      ∀ id,
        alistGet ((cs.foldl
            (fun acc c => renameUpdate t nn ob nb now fuel c acc) g).nodes) id =
          if id ∈ done ++ cs.flatMap (renameVisits fs fuel)
          then (alistGet fs.nodes id).map (renameFn t nn ob nb now id)
          else alistGet fs.nodes id := by
  intro cs
  induction cs with
  | nil =>
    intro done g _ hpre _ id
    simpa using hpre id
  | cons c cs' ihc =>
    intro done g hstruct hpre hnd id
    have hvis_eq : renameVisits g fuel c = renameVisits fs fuel c :=
      (renameVisits_congr hstruct fuel c).symm
    have hnd' : (done ++ (renameVisits fs fuel c
        ++ cs'.flatMap (renameVisits fs fuel))).Nodup := by
      simpa using hnd
    have hnd_c : (renameVisits fs fuel c).Nodup :=
      hnd'.of_append_right.of_append_left
    have hchar := ihfuel c g (by rw [hvis_eq]; exact hnd_c)
    have hdisj : done.Disjoint
        (renameVisits fs fuel c ++ cs'.flatMap (renameVisits fs fuel)) :=
      List.disjoint_of_nodup_append hnd'
    have hpre' : ∀ id,
        alistGet (renameUpdate t nn ob nb now fuel c g).nodes id =
          if id ∈ done ++ renameVisits fs fuel c
          then (alistGet fs.nodes id).map (renameFn t nn ob nb now id)
          else alistGet fs.nodes id := by
      intro id
      rw [hchar id, hvis_eq]
      by_cases hidc : id ∈ renameVisits fs fuel c
      · have hidd : id ∉ done := by
          intro hdone
          exact hdisj hdone (List.mem_append_left _ hidc)
        rw [if_pos hidc, hpre id, if_neg hidd,
          if_pos (List.mem_append_right _ hidc)]
      · rw [if_neg hidc, hpre id]
        by_cases hidd : id ∈ done
        · rw [if_pos hidd, if_pos (List.mem_append_left _ hidd)]
        · rw [if_neg hidd, if_neg (by
            intro hmem
            rcases List.mem_append.mp hmem with hm | hm
            · exact hidd hm
            · exact hidc hm)]
    have hstruct' : sameStructure fs (renameUpdate t nn ob nb now fuel c g) :=
      sameStructure_trans hstruct (renameUpdate_sameStructure t nn ob nb now fuel c g)
    have hnd'' : ((done ++ renameVisits fs fuel c)
        ++ cs'.flatMap (renameVisits fs fuel)).Nodup := by
      rw [List.append_assoc]
      exact hnd'
    have hstep := ihc (done ++ renameVisits fs fuel c)
      (renameUpdate t nn ob nb now fuel c g) hstruct' hpre' hnd'' id
    show alistGet ((cs'.foldl (fun acc c => renameUpdate t nn ob nb now fuel c acc)
        (renameUpdate t nn ob nb now fuel c g)).nodes) id = _
    rw [hstep]
    have hsets : ((done ++ renameVisits fs fuel c)
        ++ cs'.flatMap (renameVisits fs fuel))
        = done ++ (c :: cs').flatMap (renameVisits fs fuel) := by
      simp
    rw [hsets]

lemma singleton_update_lookup (t nn ob nb now : String) (fs : FileSystem)
    (nodeId : String) (n : FileNode)
    (halist : alistGet fs.nodes nodeId = some n) (id : String) :
    alistGet (alistSet fs.nodes nodeId (renameFn t nn ob nb now nodeId n)) id
      = if id ∈ [nodeId]
        then (alistGet fs.nodes id).map (renameFn t nn ob nb now id)
        else alistGet fs.nodes id := by
  rw [alistGet_alistSet]
  by_cases hid : id = nodeId
  · subst hid
    rw [if_pos rfl, if_pos (List.mem_singleton.mpr rfl), halist]
    rfl
  · rw [if_neg hid, if_neg (fun hm => hid (List.mem_singleton.mp hm))]

lemma singleton_update_structure (t nn ob nb now : String) (fs : FileSystem)
    (nodeId : String) (n : FileNode)
    (halist : alistGet fs.nodes nodeId = some n) :
    sameStructure fs
      { fs with nodes :=
          alistSet fs.nodes nodeId (renameFn t nn ob nb now nodeId n) } := by
  intro id
  show (alistGet fs.nodes id).map _
      = (alistGet (alistSet fs.nodes nodeId
          (renameFn t nn ob nb now nodeId n)) id).map _
  rw [alistGet_alistSet]
  by_cases hid : id = nodeId
  · subst hid
    rw [if_pos rfl, halist]
    rfl
  · rw [if_neg hid]

lemma renameUpdate_lookup (t nn ob nb now : String) :
    ∀ (fuel : Nat) (nodeId : String) (fs : FileSystem),
      (renameVisits fs fuel nodeId).Nodup →
      ∀ id, alistGet (renameUpdate t nn ob nb now fuel nodeId fs).nodes id =
        if id ∈ renameVisits fs fuel nodeId
        then (alistGet fs.nodes id).map (renameFn t nn ob nb now id)
        else alistGet fs.nodes id := by
  intro fuel
  induction fuel with
  | zero =>
    intro nodeId fs _ id
    simp [renameUpdate, renameVisits]
  | succ fuel ih =>
    intro nodeId fs hnd id
    cases heq : fs.getNodeById nodeId with
    | none =>
      have hvis : renameVisits fs (fuel + 1) nodeId = [] := by
        simp [renameVisits, heq]
      have hupd : renameUpdate t nn ob nb now (fuel + 1) nodeId fs = fs := by
        simp [renameUpdate, heq]
      rw [hupd, hvis]
      simp
    | some n =>
      have halist : alistGet fs.nodes nodeId = some n := heq
      by_cases hdir : n.type = "directory"
      · cases hch : n.children with
        | none =>
          have hvis : renameVisits fs (fuel + 1) nodeId = [nodeId] := by
            simp [renameVisits, heq, hdir, hch]
          have hupd : renameUpdate t nn ob nb now (fuel + 1) nodeId fs =
              { fs with nodes :=
                  alistSet fs.nodes nodeId (renameFn t nn ob nb now nodeId n) } := by
            simp [renameUpdate, heq, hdir, hch, renameFn]
          rw [hupd, hvis]
          exact singleton_update_lookup t nn ob nb now fs nodeId n halist id
        | some cs =>
          have hvis : renameVisits fs (fuel + 1) nodeId
              = nodeId :: cs.flatMap (renameVisits fs fuel) := by
            simp [renameVisits, heq, hdir, hch]
          have hupd : renameUpdate t nn ob nb now (fuel + 1) nodeId fs =
              cs.foldl (fun acc c => renameUpdate t nn ob nb now fuel c acc)
                { fs with nodes :=
                    alistSet fs.nodes nodeId (renameFn t nn ob nb now nodeId n) } := by
            simp [renameUpdate, heq, hdir, hch, renameFn]
          rw [hvis] at hnd
          have hnd2 : ([nodeId] ++ cs.flatMap (renameVisits fs fuel)).Nodup := by
            simpa using hnd
          rw [hupd, hvis]
          have hstep := renameUpdate_foldl_aux t nn ob nb now fuel ih fs cs [nodeId]
            { fs with nodes :=
                alistSet fs.nodes nodeId (renameFn t nn ob nb now nodeId n) }
            (singleton_update_structure t nn ob nb now fs nodeId n halist)
            (fun id => singleton_update_lookup t nn ob nb now fs nodeId n halist id)
            hnd2 id
          simpa using hstep
      · have hvis : renameVisits fs (fuel + 1) nodeId = [nodeId] := by
          simp [renameVisits, heq, hdir]
        have hupd : renameUpdate t nn ob nb now (fuel + 1) nodeId fs =
            { fs with nodes :=
                alistSet fs.nodes nodeId (renameFn t nn ob nb now nodeId n) } := by
          simp [renameUpdate, heq, hdir, renameFn]
        rw [hupd, hvis]
        exact singleton_update_lookup t nn ob nb now fs nodeId n halist id

lemma expandReplacement_no_dollar (matched before after : List Char) :
    ∀ (fuel : Nat) (cs : List Char), cs.length ≤ fuel → '$' ∉ cs →
      expandReplacement matched before after fuel cs = cs := by
  intro fuel
  induction fuel with
  | zero =>
    intro cs _ _
    rfl
  | succ fuel ih =>
    intro cs hlen hd
    cases cs with
    | nil => rfl
    | cons c rest =>
      have hc : ¬ c = '$' := by
        rintro rfl; exact hd (List.mem_cons_self _ _)
      have hrest : '$' ∉ rest := fun hm => hd (List.mem_cons_of_mem _ hm)
      have hlen2 : rest.length ≤ fuel := by
        simp only [List.length_cons] at hlen
        omega
      unfold expandReplacement
      rw [if_neg hc, ih rest hlen2 hrest]

lemma findFrom_zero (pat hay : List Char)
    (h : pat.isPrefixOf hay = true) : findFrom pat hay 0 = some 0 := by
  unfold findFrom
  rw [List.range_succ_eq_map]
  have hp : (decide ((0 : Nat) ≤ 0) && pat.isPrefixOf (hay.drop 0)) = true := by
    simp [h]
  exact List.find?_cons_of_pos _ hp

lemma jsReplaceFirst_prefix_eq (s pat rep : String)
    (hpre : pat.data.isPrefixOf s.data = true) (hrep : '$' ∉ rep.data) :
    jsReplaceFirst s pat rep = rep ++ String.mk (s.data.drop pat.data.length) := by
  unfold jsReplaceFirst
  rw [findFrom_zero _ _ hpre]
  show String.mk (s.data.take 0 ++
      expandReplacement pat.data (s.data.take 0)
        (s.data.drop (0 + pat.data.length)) rep.data.length rep.data ++
      s.data.drop (0 + pat.data.length)) = _
  rw [expandReplacement_no_dollar _ _ _ rep.data.length rep.data le_rfl hrep]
  simp only [List.take_zero, List.nil_append, Nat.zero_add]
  rfl

/-- C7 counterexample: the cascade's `path.replace(oldBase, newBase)`
expands `$` patterns in the new base (JavaScript GetSubstitution), so
renaming `/data/logs` to the name `x$&y` succeeds but sets the node's path
to `/data/x/data/logsy` — `$&` expands to the matched old path — instead of
the sibling path `/data/x$&y` the claimed prefix substitution would give,
and the descendant likewise lands at `/data/x/data/logsy/system.log`
instead of `/data/x$&y/system.log`. -/
theorem renameNode_dollar_expansion_counterexample :
    (seedFs.renameNode "/data/logs" "x$&y" "t3").1 = true ∧
    renameTargetPath "/data/logs" "x$&y" = "/data/x$&y" ∧
    ((alistGet (seedFs.renameNode "/data/logs" "x$&y" "t3").2.nodes
        "id12").map FileNode.path) = some "/data/x/data/logsy" ∧
    ((alistGet (seedFs.renameNode "/data/logs" "x$&y" "t3").2.nodes
        "id18").map FileNode.path) = some "/data/x/data/logsy/system.log" ∧
    ("/data/x/data/logsy" : String) ≠ "/data/x$&y" ∧
    ("/data/x/data/logsy/system.log" : String) ≠ "/data/x$&y/system.log" :=
  ⟨rfl, rfl, rfl, rfl, by decide, by decide⟩

/-- C7 as amended: provided the new sibling path contains no `$` (so the
replacement string of `path.replace` is taken literally), a successful
`renameNode` leaves every node's `id`, `content`, `children` and `type`
untouched; every node the cascade visits (the renamed node and, through the
children lists, its descendants) gets its cached path rewritten by
substituting the old subtree path prefix with the new sibling path, and
gets the new `name` exactly when it is the renamed node itself; unvisited
nodes are untouched.  The remaining hypotheses say the rename succeeds, the
traversal is duplicate-free, and every visited node's path extends the
renamed node's path — consequences of the tree invariants, under which
`path.replace(old, new)` (a first-occurrence replace) is prefix
substitution. -/
theorem renameNode_substitutes_subtree
    (fs : FileSystem) (path newName now : String) (node : FileNode)
    (h1 : fs.getNodeByPath path = some node)
    (h2 : node.readOnlyFlag = false)
    (h3 : (fs.getNodeByPath (renameTargetPath path newName)).isSome = false)
    (h4 : (renameVisits fs fs.nodes.length node.id).Nodup)
    (h5 : (renameVisits fs fs.nodes.length node.id).all
        (fun i => match alistGet fs.nodes i with
          | some n => node.path.data.isPrefixOf n.path.data
          | none => true) = true)
    (h6 : '$' ∉ (renameTargetPath path newName).data) :
    (fs.renameNode path newName now).1 = true ∧
    ∀ (id : String) (n : FileNode), alistGet fs.nodes id = some n →
      ∃ n', alistGet (fs.renameNode path newName now).2.nodes id = some n' ∧
        n'.id = n.id ∧ n'.content = n.content ∧ n'.children = n.children ∧
        n'.type = n.type ∧
        (id ∈ renameVisits fs fs.nodes.length node.id →
          n'.name = (if id = node.id then newName else n.name) ∧
          n'.path = renameTargetPath path newName ++
            String.mk (n.path.data.drop node.path.data.length)) ∧
        (id ∉ renameVisits fs fs.nodes.length node.id → n' = n) := by
  have hr : fs.renameNode path newName now =
      (true, renameUpdate node.id newName node.path
        (renameTargetPath path newName) now fs.nodes.length node.id fs) := by
    simp [FileSystem.renameNode, h1, h2, h3]
  constructor
  · rw [hr]
  · intro id n hn
    have hchar := renameUpdate_lookup node.id newName node.path
      (renameTargetPath path newName) now fs.nodes.length node.id fs h4 id
    rw [hr]
    by_cases hid : id ∈ renameVisits fs fs.nodes.length node.id
    · refine ⟨renameFn node.id newName node.path
        (renameTargetPath path newName) now id n, ?_, rfl, rfl, rfl, rfl,
        ?_, fun hcontra => absurd hid hcontra⟩
      · show alistGet (renameUpdate node.id newName node.path
            (renameTargetPath path newName) now fs.nodes.length node.id
            fs).nodes id = _
        rw [hchar, if_pos hid, hn]
        rfl
      · intro _
        refine ⟨rfl, ?_⟩
        have hall := List.all_eq_true.mp h5 id hid
        rw [hn] at hall
        simp only [decide_eq_true_eq] at hall
        show jsReplaceFirst n.path node.path
          (renameTargetPath path newName) = _
        exact jsReplaceFirst_prefix_eq n.path node.path
          (renameTargetPath path newName) hall h6
    · refine ⟨n, ?_, rfl, rfl, rfl, rfl,
        fun hmem => absurd hmem hid, fun _ => rfl⟩
      show alistGet (renameUpdate node.id newName node.path
          (renameTargetPath path newName) now fs.nodes.length node.id
          fs).nodes id = _
      rw [hchar, if_neg hid]
      exact hn

/-- Witness for C7: renaming `/data/logs` to `log` on the seeded tree moves
the descendant `system.log` to `/data/log/system.log` with its id and
content intact and its name unchanged. -/
theorem renameNode_substitutes_subtree_witness :
    (seedFs.renameNode "/data/logs" "log" "t2").1 = true ∧
    ((alistGet (seedFs.renameNode "/data/logs" "log" "t2").2.nodes
        "id18").map FileNode.path) = some "/data/log/system.log" ∧
    ((alistGet (seedFs.renameNode "/data/logs" "log" "t2").2.nodes
        "id18").map FileNode.id) = some "id18" ∧
    ((alistGet (seedFs.renameNode "/data/logs" "log" "t2").2.nodes
        "id18").map FileNode.content) = some (some seedSyslogContent) ∧
    ((alistGet (seedFs.renameNode "/data/logs" "log" "t2").2.nodes
        "id18").map FileNode.name) = some "system.log" ∧
    ((alistGet (seedFs.renameNode "/data/logs" "log" "t2").2.nodes
        "id12").map FileNode.name) = some "log" :=
  ⟨(renameNode_substitutes_subtree seedFs "/data/logs" "log" "t2" seedLogs
      rfl rfl rfl (by decide) rfl (by decide)).1,
   rfl, rfl, rfl, rfl, rfl⟩

end Wizard
